import Mathlib

/-!
ContinuousStats: exponentially weighted running mean / standard deviation

A shallow embedding of `ContinuousStats/Source/ContinuousStats.cpp` (and the state declared in
`ContinuousStats.h`), followed by theorems about it.

Modelling decisions:

* Numbers.  The C++ code computes in `double` and stores samples as `float`.  The embedding is
  generic over a field `F` (instantiated with `ℝ` in the theorems, with `ℚ` where a concrete run
  is evaluated).  The three numeric primitives the code takes from outside the repository,
  `std::expm1`, `std::sqrt` and the narrowing `static_cast<float>`, are passed in as a record
  `MathOps F`; "over the reals, write-back rounding ignored" is the instance
  `⟨fun t => Real.exp t - 1, Real.sqrt, id⟩`.  `std::pow (delta, 2)` is `delta ^ 2`.
  Division follows the field `F` (in `ℝ`, `x / 0 = 0`, where IEEE gives an infinity); the
  theorems that depend on it assume a positive time constant in samples.  Where the rounding of
  the `double` operations themselves decides a property, the sample loop is also given with
  every operation rounded (`sampleLoopRounded`, with `roundBinary 53` on `ℚ`).
* `juce::Array`.  The JUCE container is not part of the repository; the four operations used
  are modelled on lists after the JUCE documentation: `operator[]` returns a default-constructed
  element when the index is out of range, `set` appends when the index is past the end,
  `insertMultiple` with index `-1` appends, `removeLast` drops at most `size ()` elements.
* `AudioBuffer<float>`.  A total function from channel and sample offset to a value; `getSample`
  is application, `setSample` a pointwise update.
* The host.  `getDataStreams ()`, `getNumSamplesInBlock`, `getSampleRate`, the stream parameters
  `enable_stream` and `Channels`, `getNumInputs ()` and `getParameter (..)->getValue ()` are inputs
  of the embedded functions.  Channel indices, sample counts and the input count are naturals
  (`nSamples` is a `uint32` and `samp` an `int` in the source; block lengths stay far below
  `2^31`, so the loop test `samp < nSamples` is the comparison of naturals).
-/

set_option autoImplicit false
set_option linter.unusedSectionVars false

/-- Statistic option indices (`enum Statistic` in ContinuousStats.h). -/
inductive Statistic where
  | MEAN
  | STDDEV
  deriving DecidableEq, Repr

/-- The numeric primitives used by `process` that live outside the repository:
`std::expm1`, `std::sqrt` and `static_cast<float>` (the rounding applied on write-back). -/
structure MathOps (F : Type) where
  expm1 : F → F
  sqrt : F → F
  toFloat : F → F

/-- The sample buffer handed to `process`: `buf chan samp` is `getSample (chan, samp)`. -/
abbrev AudioBuffer (F : Type) := Nat → Nat → F

/-- `AudioBuffer::setSample (chan, samp, v)`. -/
def AudioBuffer.setSample {F : Type} (buf : AudioBuffer F) (chan samp : Nat) (v : F) :
    AudioBuffer F :=
  fun c i => if c = chan ∧ i = samp then v else buf c i

/-- `juce::Array::operator[]`: the element, or a default-constructed one when out of range. -/
def juceGet {α : Type} (dflt : α) (xs : List α) (i : Nat) : α :=
  if h : i < xs.length then xs.get ⟨i, h⟩ else dflt

/-- `juce::Array::set`: replaces the element, or appends it when the index is past the end. -/
def juceSet {α : Type} (xs : List α) (i : Nat) (v : α) : List α :=
  if i < xs.length then xs.set i v else xs ++ [v]

/-- `juce::Array::insertMultiple`: inserts `n` copies at `index`, at the end when `index` is
negative or past the end; nothing when `n` is not positive. -/
def insertMultiple {α : Type} (xs : List α) (index : Int) (v : α) (n : Int) : List α :=
  if 0 < n then
    if 0 ≤ index ∧ index < xs.length then
      xs.take index.toNat ++ List.replicate n.toNat v ++ xs.drop index.toNat
    else xs ++ List.replicate n.toNat v
  else xs

/-- `juce::Array::removeLast`: removes the last `howManyToRemove` elements (all of them when
there are fewer); nothing when the count is not positive. -/
def removeLast {α : Type} (xs : List α) (howManyToRemove : Int) : List α :=
  if 0 < howManyToRemove then
    let k : Nat := if howManyToRemove > xs.length then xs.length else howManyToRemove.toNat
    xs.take (xs.length - k)
  else xs

/-- `juce::String::equalsIgnoreCase`, on the characters lowered one by one. -/
def equalsIgnoreCase (a b : String) : Bool :=
  a.data.map Char.toLower == b.data.map Char.toLower

/-- The exponent of the leading bit of `n`: the largest `e` with `2^e ≤ n` (0 for `n < 2`).  The
first argument bounds the number of halvings; `n` itself is always enough. -/
def floorLog2 : Nat → Nat → Nat
  | 0, _ => 0
  | fuel + 1, n => if n < 2 then 0 else floorLog2 fuel (n / 2) + 1

/-- The rounding of one IEEE 754 binary operation: the value with a `p`-bit significand nearest
to `q`, ties going to the even significand (exponent range not bounded, so no overflow and no
subnormals).  `roundBinary 53` is the rounding of a `double` operation, `roundBinary 24` that of
`static_cast<float>`. -/
def roundBinary (p : Nat) (q : ℚ) : ℚ :=
  if q = 0 then 0 else
    let n : Nat := q.num.natAbs
    let d : Nat := q.den
    let e0 : Int := (floorLog2 n n : Int) - (floorLog2 d d : Int)
    let below : Bool :=
      if 0 ≤ e0 then decide (n < d * 2 ^ e0.toNat) else decide (n * 2 ^ (-e0).toNat < d)
    let e : Int := if below then e0 - 1 else e0
    let s : Int := e - ((p : Int) - 1)
    let num : Nat := if 0 ≤ s then n else n * 2 ^ (-s).toNat
    let den : Nat := if 0 ≤ s then d * 2 ^ s.toNat else d
    let fl : Nat := num / den
    let rem : Nat := num % den
    let r : Nat :=
      if 2 * rem < den then fl
      else if den < 2 * rem then fl + 1
      else if fl % 2 = 0 then fl else fl + 1
    let mag : ℚ := if 0 ≤ s then (r : ℚ) * 2 ^ s.toNat else (r : ℚ) / 2 ^ (-s).toNat
    if q < 0 then -mag else mag

/-- The data members of `class ContinuousStats` (ContinuousStats.h, lines 67-76). -/
structure ContinuousStats (F : Type) where
  currStat : Statistic
  timeConstMs : F
  currMean : List F
  currVar : List F
  startingRunningMean : List Bool
  deriving DecidableEq

/-- What `process` reads of one data stream: the `enable_stream` parameter,
`getNumSamplesInBlock (streamId)`, `getSampleRate (streamId)` and the `Channels` parameter. -/
structure DataStream (F : Type) where
  enable_stream : Bool
  nSamples : Nat
  sampleRate : F
  Channels : List Nat

/-- A parameter as seen by `parameterValueChanged`: its name and its (integer) value. -/
structure Parameter where
  name : String
  value : Int

namespace ContinuousStats

variable {F : Type} [Field F]

/-- The value written back: `currStat == MEAN ? mean : std::sqrt (var)` (lines 71 and 91). -/
def statValue (N : MathOps F) (currStat : Statistic) (mean var : F) : F :=
  if currStat = Statistic.MEAN then mean else N.sqrt var

/-- The sample loop of `process` (lines 86-92).  The first natural is the number of iterations
left, `nSamples - samp`; the second is `samp`. -/
def sampleLoop (N : MathOps F) (currStat : Statistic) (alpha : F) (chan : Nat) :
    Nat → Nat → F → F → AudioBuffer F → F × F × AudioBuffer F
  | 0, _, mean, var, buf => (mean, var, buf)
  | k + 1, samp, mean, var, buf =>
    let delta := buf chan samp - mean
    let mean := mean + alpha * delta
    let var := (1 - alpha) * (var + alpha * delta ^ 2)
    sampleLoop N currStat alpha chan k (samp + 1) mean var
      (buf.setSample chan samp (N.toFloat (statValue N currStat mean var)))

/-- The sample loop of `process` (lines 86-92) with the result of every `double` operation
rounded by `rd`, in the order the source writes them (no fused multiply-add):
`delta = x - mean`, `mean += alpha * delta`,
`var = (1 - alpha) * (var + alpha * std::pow (delta, 2))`.  With `rd = id` this is
`sampleLoop`. -/
def sampleLoopRounded (N : MathOps F) (rd : F → F) (currStat : Statistic) (alpha : F)
    (chan : Nat) : Nat → Nat → F → F → AudioBuffer F → F × F × AudioBuffer F
  | 0, _, mean, var, buf => (mean, var, buf)
  | k + 1, samp, mean, var, buf =>
    let delta := rd (buf chan samp - mean)
    let mean := rd (mean + rd (alpha * delta))
    let var := rd (rd (1 - alpha) * rd (var + rd (alpha * rd (delta ^ 2))))
    sampleLoopRounded N rd currStat alpha chan k (samp + 1) mean var
      (buf.setSample chan samp (N.toFloat (statValue N currStat mean var)))

/-- The decay coefficient of lines 82-83:
`timeConstSamp = timeConstMs * samplesPerMs; alpha = -std::expm1 (-1 / timeConstSamp)`. -/
def alphaOf (N : MathOps F) (timeConstMs samplesPerMs : F) : F :=
  let timeConstSamp := timeConstMs * samplesPerMs
  let alpha := -N.expm1 (-1 / timeConstSamp)
  alpha

/-- The body of the channel loop of `process` (lines 65-96) for channel `chan`. -/
def processChannel (N : MathOps F) (nSamples : Nat) (samplesPerMs : F)
    (sb : ContinuousStats F × AudioBuffer F) (chan : Nat) : ContinuousStats F × AudioBuffer F :=
  let s := sb.1
  let buf := sb.2
  let start : F × F × Nat × AudioBuffer F × List Bool :=
    if juceGet false s.startingRunningMean chan then
      let mean := buf chan 0
      let var := 0
      (mean, var, 1,
        buf.setSample chan 0 (N.toFloat (statValue N s.currStat mean var)),
        juceSet s.startingRunningMean chan false)
    else
      (juceGet 0 s.currMean chan, juceGet 0 s.currVar chan, 0, buf, s.startingRunningMean)
  let samp := start.2.2.1
  let alpha := alphaOf N s.timeConstMs samplesPerMs
  let r := sampleLoop N s.currStat alpha chan (nSamples - samp) samp start.1 start.2.1
    start.2.2.2.1
  ({ s with
      currMean := juceSet s.currMean chan r.1
      currVar := juceSet s.currVar chan r.2.1
      startingRunningMean := start.2.2.2.2 },
    r.2.2)

/-- The body of the stream loop of `process` (lines 56-98). -/
def processStream (N : MathOps F) (sb : ContinuousStats F × AudioBuffer F)
    (stream : DataStream F) : ContinuousStats F × AudioBuffer F :=
  if stream.enable_stream then
    let nSamples := stream.nSamples
    let samplesPerMs := stream.sampleRate / 1000
    stream.Channels.foldl (processChannel N nSamples samplesPerMs) sb
  else sb

/-- `ContinuousStats::process` (lines 52-100): the new state and the rewritten buffer. -/
def process (N : MathOps F) (s : ContinuousStats F) (streams : List (DataStream F))
    (continuousBuffer : AudioBuffer F) : ContinuousStats F × AudioBuffer F :=
  streams.foldl (processStream N) (s, continuousBuffer)

/-- The decoding `static_cast<Statistic> (static_cast<int> (value))`; every value other than
`MEAN` takes the `std::sqrt` branch of `process`. -/
def statisticOfInt (v : Int) : Statistic :=
  if v = 0 then Statistic.MEAN else Statistic.STDDEV

/-- `ContinuousStats::parameterValueChanged` (lines 102-112). -/
def parameterValueChanged (s : ContinuousStats F) (param : Parameter) : ContinuousStats F :=
  if equalsIgnoreCase param.name "window_ms" then
    { s with timeConstMs := (param.value : F) }
  else if equalsIgnoreCase param.name "stat" then
    { s with currStat := statisticOfInt param.value }
  else s

/-- `ContinuousStats::updateSettings` (lines 114-133); `numInputs` is `getNumInputs ()`,
`windowMs` and `stat` are the values of the parameters "window_ms" and "stat". -/
def updateSettings (s : ContinuousStats F) (numInputs : Nat) (windowMs stat : Int) :
    ContinuousStats F :=
  let numInputsChange : Int := (numInputs : Int) - (s.currMean.length : Int)
  let s1 : ContinuousStats F :=
    if numInputsChange > 0 then
      { s with
          currMean := insertMultiple s.currMean (-1) 0 numInputsChange
          currVar := insertMultiple s.currVar (-1) 0 numInputsChange
          startingRunningMean := insertMultiple s.startingRunningMean (-1) true numInputsChange }
    else if numInputsChange < 0 then
      { s with
          currMean := removeLast s.currMean (-numInputsChange)
          currVar := removeLast s.currVar (-numInputsChange)
          startingRunningMean := removeLast s.startingRunningMean (-numInputsChange) }
    else s
  { s1 with timeConstMs := (windowMs : F), currStat := statisticOfInt stat }

/-- The state the constructor leaves: the three arrays are empty.  The constructor does not
initialise `currStat` and `timeConstMs`, so these are arbitrary. -/
def isInitial (s : ContinuousStats F) : Bool :=
  s.currMean.isEmpty && s.currVar.isEmpty && s.startingRunningMean.isEmpty

/-- Every channel selected in an enabled stream has an index below `n`. -/
def selectedBelow (n : Nat) (streams : List (DataStream F)) : Bool :=
  streams.all fun st => !st.enable_stream || st.Channels.all fun c => decide (c < n)

/-- The states reachable from the constructor's state through `updateSettings`,
`parameterValueChanged` and `process` calls whose selected channels are below the tracked
channel count (the count the last `updateSettings` was given). -/
inductive Reachable (N : MathOps F) : ContinuousStats F → Prop
  | init (s : ContinuousStats F) : isInitial s = true → Reachable N s
  | settings (s : ContinuousStats F) (numInputs : Nat) (windowMs stat : Int) :
      Reachable N s → Reachable N (updateSettings s numInputs windowMs stat)
  | param (s : ContinuousStats F) (p : Parameter) :
      Reachable N s → Reachable N (parameterValueChanged s p)
  | process (s : ContinuousStats F) (streams : List (DataStream F)) (buf : AudioBuffer F) :
      Reachable N s → selectedBelow s.currMean.length streams = true →
      Reachable N (process N s streams buf).1

/-- The states that follow `s` through parameter changes and `process` calls whose selected
channels are all below `n`, with no `updateSettings` in between. -/
inductive LaterCalls (N : MathOps F) (n : Nat) : ContinuousStats F → ContinuousStats F → Prop
  | refl (s : ContinuousStats F) : LaterCalls N n s s
  | param (s t : ContinuousStats F) (p : Parameter) :
      LaterCalls N n s t → LaterCalls N n s (parameterValueChanged t p)
  | process (s t : ContinuousStats F) (streams : List (DataStream F)) (buf : AudioBuffer F) :
      LaterCalls N n s t → selectedBelow n streams = true →
      LaterCalls N n s (process N t streams buf).1

/-- The states that follow `s` through parameter changes, `process` calls (selected channels
below the tracked channel count) and `updateSettings` calls that keep the index `c` below the
input count. -/
inductive KeepsChannel (N : MathOps F) (c : Nat) : ContinuousStats F → ContinuousStats F → Prop
  | refl (s : ContinuousStats F) : KeepsChannel N c s s
  | param (s t : ContinuousStats F) (p : Parameter) :
      KeepsChannel N c s t → KeepsChannel N c s (parameterValueChanged t p)
  | process (s t : ContinuousStats F) (streams : List (DataStream F)) (buf : AudioBuffer F) :
      KeepsChannel N c s t → selectedBelow t.currMean.length streams = true →
      KeepsChannel N c s (process N t streams buf).1
  | settings (s t : ContinuousStats F) (numInputs : Nat) (windowMs stat : Int) :
      KeepsChannel N c s t → c < numInputs →
      KeepsChannel N c s (updateSettings t numInputs windowMs stat)

/-- The block of channel `chan`: the first `n` samples `[x[0], ..., x[n-1]]` of the buffer. -/
def block (buf : AudioBuffer F) (chan n : Nat) : List F :=
  (List.range n).map (buf chan)

/-- The samples `x[start], ..., x[start + n - 1]` of channel `chan`. -/
def blockFrom (buf : AudioBuffer F) (chan start n : Nat) : List F :=
  (List.range' start n).map (buf chan)

/-- The buffer holding the `nx` samples of `x` followed by the samples of `y`, on every
channel: the concatenated block `x ++ y`. -/
def concatBlocks (x y : AudioBuffer F) (nx : Nat) : AudioBuffer F :=
  fun c i => if i < nx then x c i else y c (i - nx)

/-- One step of the recursion as the specification words it (section 4.2, step 3):
`delta = x - mean`, `mean = mean + alpha * delta`,
`variance = (1 - alpha) * (variance + alpha * delta^2)`; the pair is `(mean, variance)`. -/
def specStep (alpha : F) (mv : F × F) (x : F) : F × F :=
  let delta := x - mv.1
  let mean := mv.1 + alpha * delta
  let variance := (1 - alpha) * (mv.2 + alpha * delta ^ 2)
  (mean, variance)

/-- The left fold of `specStep` over a list of samples. -/
def specFold (alpha : F) (mv : F × F) (xs : List F) : F × F :=
  xs.foldl (specStep alpha) mv

/-- The output sample as the specification words it: the mean under MEAN, the square root of
the variance under STDDEV. -/
def specOutput (sqrt : F → F) (stat : Statistic) (mv : F × F) : F :=
  match stat with
  | Statistic.MEAN => mv.1
  | Statistic.STDDEV => sqrt mv.2

/-- The channel indices `process` visits, in the order of the two loops: for every enabled
stream, its selected channels. -/
def selectedChannels : List (DataStream F) → List Nat
  | [] => []
  | stream :: rest =>
    (if stream.enable_stream then stream.Channels else []) ++ selectedChannels rest

end ContinuousStats

namespace ContinuousStats

variable {K : Type} [LinearOrderedField K]

/-- Every enabled stream has a positive sample rate. -/
def positiveRates (streams : List (DataStream K)) : Bool :=
  streams.all fun st => !st.enable_stream || decide (0 < st.sampleRate)

/-- The states reachable from the constructor's state when the host keeps its side of the
contract: the "window_ms" parameter is in its declared range `[10, 5000]` whenever it is read
(`updateSettings`) or notified (`parameterValueChanged`), and `process` is called with positive
sample rates and with selected channels below the tracked channel count. -/
inductive ReachableInRange (N : MathOps K) : ContinuousStats K → Prop
  | init (s : ContinuousStats K) : isInitial s = true → ReachableInRange N s
  | settings (s : ContinuousStats K) (numInputs : Nat) (windowMs stat : Int) :
      ReachableInRange N s → 10 ≤ windowMs → windowMs ≤ 5000 →
      ReachableInRange N (updateSettings s numInputs windowMs stat)
  | param (s : ContinuousStats K) (p : Parameter) :
      ReachableInRange N s →
      (equalsIgnoreCase p.name "window_ms" = true → 10 ≤ p.value ∧ p.value ≤ 5000) →
      ReachableInRange N (parameterValueChanged s p)
  | process (s : ContinuousStats K) (streams : List (DataStream K)) (buf : AudioBuffer K) :
      ReachableInRange N s → selectedBelow s.currMean.length streams = true →
      positiveRates streams = true →
      ReachableInRange N (process N s streams buf).1

end ContinuousStats

/-! ## Lemmas on the container model -/

section containers

variable {α : Type}

theorem juceGet_of_lt (d : α) (xs : List α) (i : Nat) (h : i < xs.length) :
    juceGet d xs i = xs.get ⟨i, h⟩ := by
  simp [juceGet, h]

theorem juceGet_of_le (d : α) (xs : List α) (i : Nat) (h : xs.length ≤ i) :
    juceGet d xs i = d := by
  simp [juceGet, Nat.not_lt.mpr h]

theorem juceGet_true_lt (xs : List Bool) (i : Nat) (h : juceGet false xs i = true) :
    i < xs.length := by
  by_contra hc
  rw [juceGet_of_le false xs i (Nat.le_of_not_lt hc)] at h
  exact Bool.false_ne_true h

theorem juceSet_of_lt (xs : List α) (i : Nat) (v : α) (h : i < xs.length) :
    juceSet xs i v = xs.set i v := by
  simp [juceSet, h]

theorem juceSet_length_of_lt (xs : List α) (i : Nat) (v : α) (h : i < xs.length) :
    (juceSet xs i v).length = xs.length := by
  simp [juceSet, h]

theorem juceSet_length_le (xs : List α) (i : Nat) (v : α) :
    xs.length ≤ (juceSet xs i v).length := by
  unfold juceSet
  split <;> simp

theorem juceSet_getElem?_ne (xs : List α) (i c : Nat) (v : α) (hne : c ≠ i)
    (hc : c < xs.length) : (juceSet xs i v)[c]? = xs[c]? := by
  unfold juceSet
  split
  · rw [List.getElem?_set_ne (Ne.symm hne)]
  · rw [List.getElem?_append_left hc]

theorem juceGet_juceSet_same (d : α) (xs : List α) (i : Nat) (v : α) (h : i < xs.length) :
    juceGet d (juceSet xs i v) i = v := by
  rw [juceSet_of_lt xs i v h, juceGet_of_lt d _ i (by simpa using h)]
  simp

theorem setSample_same {F : Type} (buf : AudioBuffer F) (chan samp : Nat) (v : F) :
    (buf.setSample chan samp v) chan samp = v := by
  simp [AudioBuffer.setSample]

theorem setSample_other {F : Type} (buf : AudioBuffer F) (chan samp c i : Nat) (v : F)
    (h : c ≠ chan ∨ i ≠ samp) : (buf.setSample chan samp v) c i = buf c i := by
  unfold AudioBuffer.setSample
  have : ¬ (c = chan ∧ i = samp) := by
    rintro ⟨h1, h2⟩
    rcases h with h | h
    · exact h h1
    · exact h h2
  simp [this]

end containers

/-! ## The sample loop -/

namespace ContinuousStats

variable {F : Type} [Field F]

/-- The loop writes only the samples `samp .. samp + k - 1` of channel `chan`. -/
theorem sampleLoop_frame (N : MathOps F) (stat : Statistic) (alpha : F) (chan : Nat) :
    ∀ (k samp : Nat) (mean var : F) (buf : AudioBuffer F) (c i : Nat),
      (c ≠ chan ∨ i < samp ∨ samp + k ≤ i) →
      (sampleLoop N stat alpha chan k samp mean var buf).2.2 c i = buf c i := by
  intro k
  induction k with
  | zero => intro samp mean var buf c i _; rfl
  | succ k ih =>
    intro samp mean var buf c i h
    simp only [sampleLoop]
    rw [ih]
    · apply setSample_other
      rcases h with h | h | h
      · exact Or.inl h
      · exact Or.inr (by omega)
      · exact Or.inr (by omega)
    · rcases h with h | h | h
      · exact Or.inl h
      · exact Or.inr (Or.inl (by omega))
      · exact Or.inr (Or.inr (by omega))

/-- A write below `samp` does not change the samples read from `samp` on. -/
theorem map_range_setSample (buf : AudioBuffer F) (chan samp k j : Nat) (v : F) (h : j < samp) :
    (List.range' samp k).map ((buf.setSample chan j v) chan) =
      (List.range' samp k).map (buf chan) := by
  apply List.map_congr_left
  intro i hi
  rw [List.mem_range'_1] at hi
  exact setSample_other buf chan j chan i v (Or.inr (by omega))

/-- The mean and the variance after the loop are the fold of the specification's step over the
samples read. -/
theorem sampleLoop_state (N : MathOps F) (stat : Statistic) (alpha : F) (chan : Nat) :
    ∀ (k samp : Nat) (mean var : F) (buf : AudioBuffer F),
      ((sampleLoop N stat alpha chan k samp mean var buf).1,
        (sampleLoop N stat alpha chan k samp mean var buf).2.1) =
      specFold alpha (mean, var) ((List.range' samp k).map (buf chan)) := by
  intro k
  induction k with
  | zero => intro samp mean var buf; rfl
  | succ k ih =>
    intro samp mean var buf
    simp only [sampleLoop]
    rw [ih, map_range_setSample buf chan (samp + 1) k samp _ (Nat.lt_succ_self samp)]
    simp [specFold, specStep, List.range'_succ]

/-- The sample written at offset `i` is the statistic of the state after the samples
`samp .. i`. -/
theorem sampleLoop_out (N : MathOps F) (stat : Statistic) (alpha : F) (chan : Nat) :
    ∀ (k samp : Nat) (mean var : F) (buf : AudioBuffer F) (i : Nat),
      samp ≤ i → i < samp + k →
      (sampleLoop N stat alpha chan k samp mean var buf).2.2 chan i =
        N.toFloat (statValue N stat
          (specFold alpha (mean, var) ((List.range' samp (i - samp + 1)).map (buf chan))).1
          (specFold alpha (mean, var) ((List.range' samp (i - samp + 1)).map (buf chan))).2) := by
  intro k
  induction k with
  | zero => intro samp mean var buf i h1 h2; omega
  | succ k ih =>
    intro samp mean var buf i h1 h2
    simp only [sampleLoop]
    rcases Nat.eq_or_lt_of_le h1 with h | h
    · subst h
      rw [sampleLoop_frame N stat alpha chan k (samp + 1) _ _ _ chan samp
        (Or.inr (Or.inl (Nat.lt_succ_self samp)))]
      simp [setSample_same, specFold, specStep, List.range'_succ]
    · rw [ih (samp + 1) _ _ _ i (by omega) (by omega),
        map_range_setSample buf chan (samp + 1) _ samp _ (Nat.lt_succ_self samp)]
      have e : i - samp + 1 = (i - (samp + 1) + 1) + 1 := by omega
      rw [e, List.range'_succ samp]
      simp [specFold, specStep]

end ContinuousStats

/-! ## One channel, one block -/

namespace ContinuousStats

variable {F : Type} [Field F]

theorem block_eq_blockFrom (buf : AudioBuffer F) (chan n : Nat) :
    block buf chan n = blockFrom buf chan 0 n := by
  simp [block, blockFrom, List.range_eq_range']

theorem block_length (buf : AudioBuffer F) (chan n : Nat) : (block buf chan n).length = n := by
  simp [block]

theorem block_take (buf : AudioBuffer F) (chan n k : Nat) (h : k ≤ n) :
    (block buf chan n).take k = block buf chan k := by
  apply List.ext_getElem
  · simp [block, h]
  · intro i h1 h2
    simp [block]

theorem blockFrom_succ (buf : AudioBuffer F) (chan start n : Nat) :
    blockFrom buf chan start (n + 1) = buf chan start :: blockFrom buf chan (start + 1) n := by
  simp [blockFrom, List.range'_succ]

theorem block_tail (buf : AudioBuffer F) (chan n : Nat) :
    (block buf chan n).tail = blockFrom buf chan 1 (n - 1) := by
  cases n with
  | zero => simp [block, blockFrom]
  | succ n => rw [block_eq_blockFrom, blockFrom_succ]; simp

theorem blockFrom_take (buf : AudioBuffer F) (chan start n k : Nat) (h : k ≤ n) :
    (blockFrom buf chan start n).take k = blockFrom buf chan start k := by
  apply List.ext_getElem
  · simp [blockFrom, h]
  · intro i h1 h2
    simp [blockFrom]

/-- A warm channel: the state after the block. -/
theorem processChannel_warm_state (N : MathOps F) (n : Nat) (spm : F) (s : ContinuousStats F)
    (buf : AudioBuffer F) (chan : Nat) (hf : juceGet false s.startingRunningMean chan = false) :
    (processChannel N n spm (s, buf) chan).1 =
      { s with
        currMean := juceSet s.currMean chan
          (specFold (alphaOf N s.timeConstMs spm)
            (juceGet 0 s.currMean chan, juceGet 0 s.currVar chan) (block buf chan n)).1
        currVar := juceSet s.currVar chan
          (specFold (alphaOf N s.timeConstMs spm)
            (juceGet 0 s.currMean chan, juceGet 0 s.currVar chan) (block buf chan n)).2 } := by
  have h := sampleLoop_state N s.currStat (alphaOf N s.timeConstMs spm) chan n 0
    (juceGet 0 s.currMean chan) (juceGet 0 s.currVar chan) buf
  rw [block_eq_blockFrom, blockFrom, ← h]
  simp [processChannel, hf]

/-- A warm channel: the samples written. -/
theorem processChannel_warm_out (N : MathOps F) (n : Nat) (spm : F) (s : ContinuousStats F)
    (buf : AudioBuffer F) (chan : Nat) (hf : juceGet false s.startingRunningMean chan = false)
    (i : Nat) (hi : i < n) :
    (processChannel N n spm (s, buf) chan).2 chan i =
      N.toFloat (statValue N s.currStat
        (specFold (alphaOf N s.timeConstMs spm)
          (juceGet 0 s.currMean chan, juceGet 0 s.currVar chan) (block buf chan (i + 1))).1
        (specFold (alphaOf N s.timeConstMs spm)
          (juceGet 0 s.currMean chan, juceGet 0 s.currVar chan) (block buf chan (i + 1))).2) := by
  have h := sampleLoop_out N s.currStat (alphaOf N s.timeConstMs spm) chan n 0
    (juceGet 0 s.currMean chan) (juceGet 0 s.currVar chan) buf i (Nat.zero_le i) (by omega)
  rw [block_eq_blockFrom, blockFrom, ← Nat.sub_zero i, ← h]
  simp [processChannel, hf]

/-- A cold channel: the state after the block. -/
theorem processChannel_cold_state (N : MathOps F) (n : Nat) (spm : F) (s : ContinuousStats F)
    (buf : AudioBuffer F) (chan : Nat) (hf : juceGet false s.startingRunningMean chan = true) :
    (processChannel N n spm (s, buf) chan).1 =
      { s with
        currMean := juceSet s.currMean chan
          (specFold (alphaOf N s.timeConstMs spm) (buf chan 0, 0) (blockFrom buf chan 1 (n - 1))).1
        currVar := juceSet s.currVar chan
          (specFold (alphaOf N s.timeConstMs spm) (buf chan 0, 0) (blockFrom buf chan 1 (n - 1))).2
        startingRunningMean := juceSet s.startingRunningMean chan false } := by
  have h := sampleLoop_state N s.currStat (alphaOf N s.timeConstMs spm) chan (n - 1) 1
    (buf chan 0) 0 (buf.setSample chan 0 (N.toFloat (statValue N s.currStat (buf chan 0) 0)))
  rw [map_range_setSample buf chan 1 (n - 1) 0 _ Nat.zero_lt_one] at h
  rw [blockFrom, ← h]
  simp [processChannel, hf]

/-- A cold channel: the samples written (offset 0 included, an empty block as well). -/
theorem processChannel_cold_out (N : MathOps F) (n : Nat) (spm : F) (s : ContinuousStats F)
    (buf : AudioBuffer F) (chan : Nat) (hf : juceGet false s.startingRunningMean chan = true)
    (i : Nat) (hi : i < n ∨ i = 0) :
    (processChannel N n spm (s, buf) chan).2 chan i =
      N.toFloat (statValue N s.currStat
        (specFold (alphaOf N s.timeConstMs spm) (buf chan 0, 0) (blockFrom buf chan 1 i)).1
        (specFold (alphaOf N s.timeConstMs spm) (buf chan 0, 0) (blockFrom buf chan 1 i)).2) := by
  have e : (processChannel N n spm (s, buf) chan).2 =
      (sampleLoop N s.currStat (alphaOf N s.timeConstMs spm) chan (n - 1) 1 (buf chan 0) 0
        (buf.setSample chan 0 (N.toFloat (statValue N s.currStat (buf chan 0) 0)))).2.2 := by
    simp [processChannel, hf]
  rw [e]
  rcases Nat.eq_zero_or_pos i with h0 | h0
  · subst h0
    rw [sampleLoop_frame N s.currStat _ chan (n - 1) 1 _ _ _ chan 0 (Or.inr (Or.inl Nat.zero_lt_one))]
    simp [setSample_same, blockFrom, specFold]
  · have hin : i < n := by omega
    rw [sampleLoop_out N s.currStat _ chan (n - 1) 1 _ _ _ i h0 (by omega),
      map_range_setSample buf chan 1 _ 0 _ Nat.zero_lt_one]
    have e2 : i - 1 + 1 = i := by omega
    rw [e2, blockFrom]

/-- Samples of other channels, and samples past the block, are not written. -/
theorem processChannel_buf_frame (N : MathOps F) (n : Nat) (spm : F)
    (sb : ContinuousStats F × AudioBuffer F) (chan c i : Nat)
    (h : c ≠ chan ∨ (n ≤ i ∧ 0 < i)) :
    (processChannel N n spm sb chan).2 c i = sb.2 c i := by
  obtain ⟨s, buf⟩ := sb
  by_cases hf : juceGet false s.startingRunningMean chan = true
  · have e : (processChannel N n spm (s, buf) chan).2 =
        (sampleLoop N s.currStat (alphaOf N s.timeConstMs spm) chan (n - 1) 1 (buf chan 0) 0
          (buf.setSample chan 0 (N.toFloat (statValue N s.currStat (buf chan 0) 0)))).2.2 := by
      simp [processChannel, hf]
    rw [e, sampleLoop_frame]
    · apply setSample_other
      rcases h with h | h
      · exact Or.inl h
      · exact Or.inr (by omega)
    · rcases h with h | h
      · exact Or.inl h
      · exact Or.inr (Or.inr (by omega))
  · have hf2 : juceGet false s.startingRunningMean chan = false := by simpa using hf
    have e : (processChannel N n spm (s, buf) chan).2 =
        (sampleLoop N s.currStat (alphaOf N s.timeConstMs spm) chan n 0
          (juceGet 0 s.currMean chan) (juceGet 0 s.currVar chan) buf).2.2 := by
      simp [processChannel, hf2]
    rw [e, sampleLoop_frame]
    rcases h with h | h
    · exact Or.inl h
    · exact Or.inr (Or.inr (by omega))

end ContinuousStats

/-! ## The per-channel update over the reals -/

namespace ContinuousStats

theorem statValue_eq_specOutput {F : Type} (N : MathOps F) (stat : Statistic) (mv : F × F) :
    statValue N stat mv.1 mv.2 = specOutput N.sqrt stat mv := by
  cases stat <;> simp [statValue, specOutput]

theorem alphaOf_real (sqrt toFloat : ℝ → ℝ) (timeConstMs samplesPerMs : ℝ) :
    alphaOf ⟨fun t => Real.exp t - 1, sqrt, toFloat⟩ timeConstMs samplesPerMs =
      1 - Real.exp (-1 / (timeConstMs * samplesPerMs)) := by
  simp [alphaOf]

/-- C1. For a warm channel `chan` with stored mean `m` and variance `v`, the per-channel update
of `process` (over the reals, no rounding on write-back) uses
`alpha = 1 - exp (-1 / (timeConstMs * (sampleRate / 1000)))` and is the left fold of the
specification's step over the block `x = [x[0], ..., x[n-1]]`: sample `i` becomes the mean
(MEAN) or the square root of the variance (STDDEV) after step `i`, the final mean and variance
are stored at index `chan`, and nothing else of the state changes (the flag stays false).  A
`process` call with one enabled stream selecting `chan` is exactly this update. -/
theorem process_warm_channel_is_fold (s : ContinuousStats ℝ) (buf : AudioBuffer ℝ)
    (chan n : Nat) (sampleRate : ℝ)
    (hm : chan < s.currMean.length) (hv : chan < s.currVar.length)
    (hf : juceGet false s.startingRunningMean chan = false) :
    process ⟨fun t => Real.exp t - 1, Real.sqrt, id⟩ s [⟨true, n, sampleRate, [chan]⟩] buf =
      processChannel ⟨fun t => Real.exp t - 1, Real.sqrt, id⟩ n (sampleRate / 1000) (s, buf) chan ∧
    (∀ i, i < n →
      (processChannel ⟨fun t => Real.exp t - 1, Real.sqrt, id⟩ n (sampleRate / 1000)
          (s, buf) chan).2 chan i =
        specOutput Real.sqrt s.currStat
          (specFold (1 - Real.exp (-1 / (s.timeConstMs * (sampleRate / 1000))))
            (s.currMean.get ⟨chan, hm⟩, s.currVar.get ⟨chan, hv⟩)
            ((block buf chan n).take (i + 1)))) ∧
    (processChannel ⟨fun t => Real.exp t - 1, Real.sqrt, id⟩ n (sampleRate / 1000)
        (s, buf) chan).1 =
      { s with
        currMean := s.currMean.set chan
          (specFold (1 - Real.exp (-1 / (s.timeConstMs * (sampleRate / 1000))))
            (s.currMean.get ⟨chan, hm⟩, s.currVar.get ⟨chan, hv⟩) (block buf chan n)).1
        currVar := s.currVar.set chan
          (specFold (1 - Real.exp (-1 / (s.timeConstMs * (sampleRate / 1000))))
            (s.currMean.get ⟨chan, hm⟩, s.currVar.get ⟨chan, hv⟩) (block buf chan n)).2 } ∧
    juceGet false
      (processChannel ⟨fun t => Real.exp t - 1, Real.sqrt, id⟩ n (sampleRate / 1000)
        (s, buf) chan).1.startingRunningMean chan = false := by
  refine ⟨by simp [process, processStream], ?_, ?_, ?_⟩
  · intro i hi
    rw [processChannel_warm_out _ n _ s buf chan hf i hi, block_take buf chan n (i + 1) hi,
      statValue_eq_specOutput, alphaOf_real, juceGet_of_lt 0 _ chan hm, juceGet_of_lt 0 _ chan hv]
    rfl
  · rw [processChannel_warm_state _ n _ s buf chan hf, alphaOf_real, juceGet_of_lt 0 _ chan hm,
      juceGet_of_lt 0 _ chan hv, juceSet_of_lt _ chan _ hm, juceSet_of_lt _ chan _ hv]
  · rw [processChannel_warm_state _ n _ s buf chan hf]
    exact hf

end ContinuousStats

namespace ContinuousStats

/-- Witness for C1: a warm channel at mean 0 and variance 0, MEAN, time constant 10 ms at
100 Hz (one sample, so `alpha = 1 - exp (-1)`), block `[10]`: the sample becomes
`10 * (1 - exp (-1))`, which is also the stored mean, and the stored variance is
`exp (-1) * ((1 - exp (-1)) * 100)`. -/
theorem process_warm_channel_is_fold_witness :
    (processChannel ⟨fun t => Real.exp t - 1, Real.sqrt, id⟩ 1 (100 / 1000)
        (⟨Statistic.MEAN, 10, [0], [0], [false]⟩, fun _ _ => 10) 0).2 0 0 =
      10 * (1 - Real.exp (-1)) ∧
    (processChannel ⟨fun t => Real.exp t - 1, Real.sqrt, id⟩ 1 (100 / 1000)
        (⟨Statistic.MEAN, 10, [0], [0], [false]⟩, fun _ _ => 10) 0).1 =
      ⟨Statistic.MEAN, 10, [10 * (1 - Real.exp (-1))],
        [Real.exp (-1) * ((1 - Real.exp (-1)) * 100)], [false]⟩ := by
  have h := process_warm_channel_is_fold ⟨Statistic.MEAN, 10, [0], [0], [false]⟩
    (fun _ _ => 10) 0 1 100 (by simp) (by simp) (by simp [juceGet])
  refine ⟨?_, ?_⟩
  · rw [h.2.1 0 Nat.zero_lt_one]
    norm_num [specOutput, specFold, specStep, block]
    ring
  · rw [h.2.2.1]
    norm_num [specFold, specStep, block]
    ring

end ContinuousStats

namespace ContinuousStats

theorem block_shift {F : Type} (buf : AudioBuffer F) (chan n : Nat) :
    block (fun c i => buf c (i + 1)) chan n = blockFrom buf chan 1 n := by
  apply List.ext_getElem
  · simp [block, blockFrom]
  · intro i h1 h2
    simp [block, blockFrom, Nat.add_comm]

/-- A cold channel treats the samples after the first as a warm channel with mean `x[0]` and
variance 0 treats them: same final state, same samples written. -/
theorem processChannel_cold_eq_warm {F : Type} [Field F] (N : MathOps F) (n : Nat) (spm : F)
    (s : ContinuousStats F) (buf : AudioBuffer F) (chan : Nat)
    (hm : chan < s.currMean.length) (hv : chan < s.currVar.length)
    (hf : juceGet false s.startingRunningMean chan = true) :
    (processChannel N n spm (s, buf) chan).1 =
      (processChannel N (n - 1) spm
        ({ s with
            currMean := s.currMean.set chan (buf chan 0)
            currVar := s.currVar.set chan 0
            startingRunningMean := s.startingRunningMean.set chan false },
          fun c i => buf c (i + 1)) chan).1 ∧
    ∀ i, i + 1 < n →
      (processChannel N n spm (s, buf) chan).2 chan (i + 1) =
        (processChannel N (n - 1) spm
          ({ s with
              currMean := s.currMean.set chan (buf chan 0)
              currVar := s.currVar.set chan 0
              startingRunningMean := s.startingRunningMean.set chan false },
            fun c i => buf c (i + 1)) chan).2 chan i := by
  have hfl := juceGet_true_lt _ _ hf
  have hf2 : juceGet false
      ({ s with
          currMean := s.currMean.set chan (buf chan 0)
          currVar := s.currVar.set chan 0
          startingRunningMean := s.startingRunningMean.set chan false } :
        ContinuousStats F).startingRunningMean chan = false := by
    simp [juceGet, hfl]
  constructor
  · rw [processChannel_cold_state N n spm s buf chan hf,
      processChannel_warm_state N (n - 1) spm _ _ chan hf2, block_shift]
    simp [juceGet, juceSet, hm, hv, hfl]
  · intro i hi
    rw [processChannel_cold_out N n spm s buf chan hf (i + 1) (Or.inl hi),
      processChannel_warm_out N (n - 1) spm _ _ chan hf2 i (by omega), block_shift]
    simp [juceGet, hm, hv]

/-- C2. For a cold channel `chan` and a non-empty block (over the reals, no rounding on
write-back), `process` writes `x[0]` at offset 0 under MEAN and `0` under STDDEV, clears the
cold-start flag, and treats the samples `x[1..n-1]` exactly as the warm channel with mean `x[0]`
and variance `0` treats them: same final state and same samples written. -/
theorem process_cold_channel (s : ContinuousStats ℝ) (buf : AudioBuffer ℝ)
    (chan n : Nat) (sampleRate : ℝ)
    (hm : chan < s.currMean.length) (hv : chan < s.currVar.length)
    (hf : juceGet false s.startingRunningMean chan = true) (hn : 0 < n) :
    (processChannel ⟨fun t => Real.exp t - 1, Real.sqrt, id⟩ n (sampleRate / 1000)
        (s, buf) chan).2 chan 0 =
      (match s.currStat with
        | Statistic.MEAN => buf chan 0
        | Statistic.STDDEV => 0) ∧
    juceGet false
      (processChannel ⟨fun t => Real.exp t - 1, Real.sqrt, id⟩ n (sampleRate / 1000)
        (s, buf) chan).1.startingRunningMean chan = false ∧
    (processChannel ⟨fun t => Real.exp t - 1, Real.sqrt, id⟩ n (sampleRate / 1000)
        (s, buf) chan).1 =
      (processChannel ⟨fun t => Real.exp t - 1, Real.sqrt, id⟩ (n - 1) (sampleRate / 1000)
        ({ s with
            currMean := s.currMean.set chan (buf chan 0)
            currVar := s.currVar.set chan 0
            startingRunningMean := s.startingRunningMean.set chan false },
          fun c i => buf c (i + 1)) chan).1 ∧
    ∀ i, i + 1 < n →
      (processChannel ⟨fun t => Real.exp t - 1, Real.sqrt, id⟩ n (sampleRate / 1000)
          (s, buf) chan).2 chan (i + 1) =
        (processChannel ⟨fun t => Real.exp t - 1, Real.sqrt, id⟩ (n - 1) (sampleRate / 1000)
          ({ s with
              currMean := s.currMean.set chan (buf chan 0)
              currVar := s.currVar.set chan 0
              startingRunningMean := s.startingRunningMean.set chan false },
            fun c i => buf c (i + 1)) chan).2 chan i := by
  have hfl := juceGet_true_lt _ _ hf
  have h := processChannel_cold_eq_warm ⟨fun t => Real.exp t - 1, Real.sqrt, id⟩ n
    (sampleRate / 1000) s buf chan hm hv hf
  refine ⟨?_, ?_, h.1, h.2⟩
  · rw [processChannel_cold_out _ n _ s buf chan hf 0 (Or.inl hn)]
    cases hs : s.currStat <;> simp [statValue, specFold, blockFrom]
  · rw [processChannel_cold_state _ n _ s buf chan hf]
    simp [juceGet, juceSet, hfl]

/-- Witness for C2: the specification's scenario, a cold channel under MEAN with a time constant
of 1000 ms at 1000 Hz and the block `[0, 10]`: the output is `[0, 10 * alpha]` with
`alpha = 1 - exp (-1 / 1000)`, the flag is cleared. -/
theorem process_cold_channel_witness :
    (processChannel ⟨fun t => Real.exp t - 1, Real.sqrt, id⟩ 2 (1000 / 1000)
        (⟨Statistic.MEAN, 1000, [0], [0], [true]⟩,
          fun _ i => if i = 0 then 0 else 10) 0).2 0 0 = 0 ∧
    (processChannel ⟨fun t => Real.exp t - 1, Real.sqrt, id⟩ 2 (1000 / 1000)
        (⟨Statistic.MEAN, 1000, [0], [0], [true]⟩,
          fun _ i => if i = 0 then 0 else 10) 0).2 0 1 = 10 * (1 - Real.exp (-1 / 1000)) ∧
    (processChannel ⟨fun t => Real.exp t - 1, Real.sqrt, id⟩ 2 (1000 / 1000)
        (⟨Statistic.MEAN, 1000, [0], [0], [true]⟩,
          fun _ i => if i = 0 then 0 else 10) 0).1.startingRunningMean = [false] := by
  have h := process_cold_channel ⟨Statistic.MEAN, 1000, [0], [0], [true]⟩
    (fun _ i => if i = 0 then 0 else 10) 0 2 1000 (by simp) (by simp) (by simp [juceGet])
    (by norm_num)
  refine ⟨?_, ?_, ?_⟩
  · rw [h.1]
    simp
  · rw [h.2.2.2 0 (by norm_num),
      processChannel_warm_out _ _ _ _ _ 0 (by simp [juceGet]) 0 (by norm_num)]
    norm_num [statValue, specFold, specStep, block, juceGet, alphaOf]
    ring
  · rw [h.2.2.1, processChannel_warm_state _ _ _ _ _ 0 (by simp [juceGet])]
    simp

end ContinuousStats

/-! ## Block boundaries -/

namespace ContinuousStats

variable {F : Type} [Field F]

theorem specFold_append (alpha : F) (mv : F × F) (xs ys : List F) :
    specFold alpha mv (xs ++ ys) = specFold alpha (specFold alpha mv xs) ys := by
  simp [specFold, List.foldl_append]

theorem blockFrom_concat_left (x y : AudioBuffer F) (chan nx start k : Nat)
    (h : start + k ≤ nx) :
    blockFrom (concatBlocks x y nx) chan start k = blockFrom x chan start k := by
  apply List.map_congr_left
  intro i hi
  rw [List.mem_range'_1] at hi
  have : i < nx := by omega
  simp [concatBlocks, this]

theorem blockFrom_concat (x y : AudioBuffer F) (chan nx start k : Nat) (h : start ≤ nx) :
    blockFrom (concatBlocks x y nx) chan start (nx - start + k) =
      blockFrom x chan start (nx - start) ++ block y chan k := by
  apply List.ext_getElem
  · simp [block, blockFrom]
  · intro i h1 h2
    simp only [blockFrom, block, List.getElem_map, List.getElem_range', List.getElem_append,
      List.length_map, List.length_range', List.getElem_range, concatBlocks]
    simp only [Nat.one_mul]
    by_cases hi : i < nx - start
    · have : start + i < nx := by omega
      simp [hi, this]
    · have : ¬ start + i < nx := by omega
      have e : start + i - nx = i - (nx - start) := by omega
      simp [hi, this, e]

/-- The state a warm channel stores reads back as the stored pair. -/
theorem juceGet_after_set (xs : List F) (chan : Nat) (v : F) (h : chan < xs.length) :
    juceGet 0 (juceSet xs chan v) chan = v :=
  juceGet_juceSet_same 0 xs chan v h

theorem juceSet_juceSet (xs : List F) (chan : Nat) (v w : F) (h : chan < xs.length) :
    juceSet (juceSet xs chan v) chan w = juceSet xs chan w := by
  simp [juceSet, h]

/-- C3. Block boundaries do not matter.  For a channel `chan` with stored state, cold or warm,
and a fixed statistic, time constant and sample rate: processing a non-empty block `x` and then
a block `y` in two consecutive calls gives the same final state (means, variances, flags) and
the same output samples as processing the concatenated block in one call. -/
theorem block_boundaries_do_not_matter (N : MathOps F) (s : ContinuousStats F)
    (x y : AudioBuffer F) (chan nx ny : Nat) (sampleRate : F)
    (hm : chan < s.currMean.length) (hv : chan < s.currVar.length) (hx : 0 < nx) :
    (processChannel N (nx + ny) (sampleRate / 1000) (s, concatBlocks x y nx) chan).1 =
      (processChannel N ny (sampleRate / 1000)
        ((processChannel N nx (sampleRate / 1000) (s, x) chan).1, y) chan).1 ∧
    (∀ i, i < nx →
      (processChannel N (nx + ny) (sampleRate / 1000) (s, concatBlocks x y nx) chan).2 chan i =
        (processChannel N nx (sampleRate / 1000) (s, x) chan).2 chan i) ∧
    (∀ j, j < ny →
      (processChannel N (nx + ny) (sampleRate / 1000) (s, concatBlocks x y nx) chan).2 chan
          (nx + j) =
        (processChannel N ny (sampleRate / 1000)
          ((processChannel N nx (sampleRate / 1000) (s, x) chan).1, y) chan).2 chan j) := by
  have hx0 : concatBlocks x y nx chan 0 = x chan 0 := by simp [concatBlocks, hx]
  by_cases hf : juceGet false s.startingRunningMean chan = true
  · -- cold channel
    have hfl := juceGet_true_lt _ _ hf
    have hf1 : juceGet false
        (processChannel N nx (sampleRate / 1000) (s, x) chan).1.startingRunningMean chan =
          false := by
      rw [processChannel_cold_state N nx _ s x chan hf]
      exact juceGet_juceSet_same false _ chan false hfl
    have e1 : nx + ny - 1 = nx - 1 + ny := by omega
    refine ⟨?_, ?_, ?_⟩
    · rw [processChannel_warm_state N ny _ _ y chan hf1,
        processChannel_cold_state N (nx + ny) _ s _ chan hf,
        processChannel_cold_state N nx _ s x chan hf, e1,
        blockFrom_concat x y chan nx 1 ny hx, specFold_append, hx0]
      simp only [juceGet_after_set _ chan _ hm, juceGet_after_set _ chan _ hv,
        juceSet_juceSet _ chan _ _ hm, juceSet_juceSet _ chan _ _ hv]
    · intro i hi
      rw [processChannel_cold_out N (nx + ny) _ s _ chan hf i (Or.inl (by omega)),
        processChannel_cold_out N nx _ s x chan hf i (Or.inl hi),
        blockFrom_concat_left x y chan nx 1 i (by omega), hx0]
    · intro j hj
      have e2 : nx + j = nx - 1 + (j + 1) := by omega
      rw [processChannel_cold_out N (nx + ny) _ s _ chan hf (nx + j) (Or.inl (by omega)),
        processChannel_warm_out N ny _ _ y chan hf1 j hj,
        processChannel_cold_state N nx _ s x chan hf, e2,
        blockFrom_concat x y chan nx 1 (j + 1) hx, specFold_append, hx0]
      simp only [juceGet_after_set _ chan _ hm, juceGet_after_set _ chan _ hv]
  · -- warm channel
    have hf0 : juceGet false s.startingRunningMean chan = false := by simpa using hf
    have hf1 : juceGet false
        (processChannel N nx (sampleRate / 1000) (s, x) chan).1.startingRunningMean chan =
          false := by
      rw [processChannel_warm_state N nx _ s x chan hf0]
      exact hf0
    have e0 : ∀ k, block (concatBlocks x y nx) chan (nx + k) = block x chan nx ++ block y chan k := by
      intro k
      have := blockFrom_concat x y chan nx 0 k (Nat.zero_le nx)
      simpa [block_eq_blockFrom] using this
    refine ⟨?_, ?_, ?_⟩
    · rw [processChannel_warm_state N ny _ _ y chan hf1,
        processChannel_warm_state N (nx + ny) _ s _ chan hf0,
        processChannel_warm_state N nx _ s x chan hf0, e0, specFold_append]
      simp only [juceGet_after_set _ chan _ hm, juceGet_after_set _ chan _ hv,
        juceSet_juceSet _ chan _ _ hm, juceSet_juceSet _ chan _ _ hv]
    · intro i hi
      rw [processChannel_warm_out N (nx + ny) _ s _ chan hf0 i (by omega),
        processChannel_warm_out N nx _ s x chan hf0 i hi, block_eq_blockFrom,
        blockFrom_concat_left x y chan nx 0 (i + 1) (by omega), ← block_eq_blockFrom]
    · intro j hj
      rw [processChannel_warm_out N (nx + ny) _ s _ chan hf0 (nx + j) (by omega),
        processChannel_warm_out N ny _ _ y chan hf1 j hj,
        processChannel_warm_state N nx _ s x chan hf0, Nat.add_assoc, e0, specFold_append]
      simp only [juceGet_after_set _ chan _ hm, juceGet_after_set _ chan _ hv]

end ContinuousStats

namespace ContinuousStats

/-- Witness for C3 over the rationals, with `alpha = 1/2`: a cold channel, the block `[4]` and
then the block `[8]`, against the block `[4, 8]` in one call; both end with mean 6, variance 4
and a cleared flag, and write `[4, 6]`. -/
theorem block_boundaries_do_not_matter_witness :
    ((processChannel (⟨fun _ => -1 / 2, id, id⟩ : MathOps ℚ) (1 + 1) (1000 / 1000)
        (⟨Statistic.MEAN, 1000, [0], [0], [true]⟩,
          concatBlocks (fun _ _ => 4) (fun _ _ => 8) 1) 0).1 =
      (processChannel ⟨fun _ => -1 / 2, id, id⟩ 1 (1000 / 1000)
        ((processChannel ⟨fun _ => -1 / 2, id, id⟩ 1 (1000 / 1000)
          (⟨Statistic.MEAN, 1000, [0], [0], [true]⟩, fun _ _ => 4) 0).1, fun _ _ => 8) 0).1) ∧
    (processChannel (⟨fun _ => -1 / 2, id, id⟩ : MathOps ℚ) 1 (1000 / 1000)
        ((processChannel ⟨fun _ => -1 / 2, id, id⟩ 1 (1000 / 1000)
          (⟨Statistic.MEAN, 1000, [0], [0], [true]⟩, fun _ _ => 4) 0).1, fun _ _ => 8) 0).1 =
      ⟨Statistic.MEAN, 1000, [6], [4], [false]⟩ ∧
    (processChannel (⟨fun _ => -1 / 2, id, id⟩ : MathOps ℚ) (1 + 1) (1000 / 1000)
        (⟨Statistic.MEAN, 1000, [0], [0], [true]⟩,
          concatBlocks (fun _ _ => 4) (fun _ _ => 8) 1) 0).2 0 (1 + 0) = 6 :=
  ⟨(block_boundaries_do_not_matter (⟨fun _ => -1 / 2, id, id⟩ : MathOps ℚ)
      ⟨Statistic.MEAN, 1000, [0], [0], [true]⟩ (fun _ _ => 4) (fun _ _ => 8) 0 1 1 1000
      (by decide) (by decide) (by decide)).1,
    by decide!,
    ((block_boundaries_do_not_matter (⟨fun _ => -1 / 2, id, id⟩ : MathOps ℚ)
      ⟨Statistic.MEAN, 1000, [0], [0], [true]⟩ (fun _ _ => 4) (fun _ _ => 8) 0 1 1 1000
      (by decide) (by decide) (by decide)).2.2 0 (by decide)).trans (by decide!)⟩

end ContinuousStats

/-! ## Dispatch over streams and channels -/

section folds

variable {α β : Type}

/-- A property kept by every step on the listed elements is kept by the fold. -/
theorem foldl_keeps (P : β → Prop) (Q : α → Prop) (f : β → α → β)
    (hstep : ∀ b a, Q a → P b → P (f b a)) :
    ∀ (l : List α) (b : β), (∀ a ∈ l, Q a) → P b → P (l.foldl f b) := by
  intro l
  induction l with
  | nil => intro b _ hb; exact hb
  | cons a l ih =>
    intro b hQ hb
    rw [List.foldl_cons]
    exact ih (f b a) (fun a' ha' => hQ a' (List.mem_cons_of_mem a ha'))
      (hstep b a (hQ a (List.mem_cons_self a l)) hb)

theorem juceSet_getElem?_some (xs : List α) (i c : Nat) (v w : α) (hne : c ≠ i)
    (h : xs[c]? = some w) : (juceSet xs i v)[c]? = some w := by
  have hc : c < xs.length := by
    by_contra hc
    rw [List.getElem?_eq_none (Nat.le_of_not_lt hc)] at h
    exact Option.noConfusion h
  rw [juceSet_getElem?_ne xs i c v hne hc]
  exact h

end folds

namespace ContinuousStats

variable {F : Type} [Field F]

/-- The state entries of another channel are not touched by the update of `chan`. -/
theorem processChannel_state_frame (N : MathOps F) (n : Nat) (spm : F)
    (sb : ContinuousStats F × AudioBuffer F) (chan c : Nat) (hne : c ≠ chan) :
    (∀ v, sb.1.currMean[c]? = some v → (processChannel N n spm sb chan).1.currMean[c]? = some v) ∧
    (∀ v, sb.1.currVar[c]? = some v → (processChannel N n spm sb chan).1.currVar[c]? = some v) ∧
    (∀ b, sb.1.startingRunningMean[c]? = some b →
      (processChannel N n spm sb chan).1.startingRunningMean[c]? = some b) := by
  obtain ⟨s, buf⟩ := sb
  by_cases hf : juceGet false s.startingRunningMean chan = true
  · rw [processChannel_cold_state N n spm s buf chan hf]
    exact ⟨fun v h => juceSet_getElem?_some _ chan c _ v hne h,
      fun v h => juceSet_getElem?_some _ chan c _ v hne h,
      fun b h => juceSet_getElem?_some _ chan c _ b hne h⟩
  · have hf0 : juceGet false s.startingRunningMean chan = false := by simpa using hf
    rw [processChannel_warm_state N n spm s buf chan hf0]
    exact ⟨fun v h => juceSet_getElem?_some _ chan c _ v hne h,
      fun v h => juceSet_getElem?_some _ chan c _ v hne h, fun b h => h⟩

/-- What a channel that is not updated keeps: its samples and its state entries. -/
theorem processStream_frame (N : MathOps F) (s : ContinuousStats F) (buf : AudioBuffer F)
    (c : Nat) (sb : ContinuousStats F × AudioBuffer F) (stream : DataStream F)
    (hc : stream.enable_stream = true → c ∉ stream.Channels)
    (h : (∀ i, sb.2 c i = buf c i) ∧
      (∀ v, s.currMean[c]? = some v → sb.1.currMean[c]? = some v) ∧
      (∀ v, s.currVar[c]? = some v → sb.1.currVar[c]? = some v) ∧
      (∀ b, s.startingRunningMean[c]? = some b → sb.1.startingRunningMean[c]? = some b)) :
    (∀ i, (processStream N sb stream).2 c i = buf c i) ∧
      (∀ v, s.currMean[c]? = some v → (processStream N sb stream).1.currMean[c]? = some v) ∧
      (∀ v, s.currVar[c]? = some v → (processStream N sb stream).1.currVar[c]? = some v) ∧
      (∀ b, s.startingRunningMean[c]? = some b →
        (processStream N sb stream).1.startingRunningMean[c]? = some b) := by
  unfold processStream
  by_cases he : stream.enable_stream = true
  · simp only [he, if_true]
    refine foldl_keeps
      (fun sb' : ContinuousStats F × AudioBuffer F => (∀ i, sb'.2 c i = buf c i) ∧
        (∀ v, s.currMean[c]? = some v → sb'.1.currMean[c]? = some v) ∧
        (∀ v, s.currVar[c]? = some v → sb'.1.currVar[c]? = some v) ∧
        (∀ b, s.startingRunningMean[c]? = some b → sb'.1.startingRunningMean[c]? = some b))
      (fun chan => c ≠ chan) _ ?_ stream.Channels sb ?_ h
    · intro sb' chan hne hP
      have hfr := processChannel_state_frame N stream.nSamples (stream.sampleRate / 1000)
        sb' chan c hne
      refine ⟨fun i => ?_, fun v hv => hfr.1 v (hP.2.1 v hv), fun v hv => hfr.2.1 v (hP.2.2.1 v hv),
        fun b hb => hfr.2.2 b (hP.2.2.2 b hb)⟩
      rw [processChannel_buf_frame N _ _ sb' chan c i (Or.inl hne)]
      exact hP.1 i
    · intro chan hmem hEq
      exact hc he (hEq ▸ hmem)
  · simp only [he]
    exact h

/-- C4. Pass-through.  For every call to `process`, a channel `c` that is not selected in any
enabled stream keeps every sample, and the mean, variance and cold-start flag stored for it
(when its index is below the length of the array) are unchanged. -/
theorem process_pass_through (N : MathOps F) (s : ContinuousStats F)
    (streams : List (DataStream F)) (buf : AudioBuffer F) (c : Nat)
    (hc : ∀ st ∈ streams, st.enable_stream = true → c ∉ st.Channels) :
    (∀ i, (process N s streams buf).2 c i = buf c i) ∧
    (c < s.currMean.length → (process N s streams buf).1.currMean[c]? = s.currMean[c]?) ∧
    (c < s.currVar.length → (process N s streams buf).1.currVar[c]? = s.currVar[c]?) ∧
    (c < s.startingRunningMean.length →
      (process N s streams buf).1.startingRunningMean[c]? = s.startingRunningMean[c]?) := by
  have h := foldl_keeps
    (fun sb' : ContinuousStats F × AudioBuffer F => (∀ i, sb'.2 c i = buf c i) ∧
      (∀ v, s.currMean[c]? = some v → sb'.1.currMean[c]? = some v) ∧
      (∀ v, s.currVar[c]? = some v → sb'.1.currVar[c]? = some v) ∧
      (∀ b, s.startingRunningMean[c]? = some b → sb'.1.startingRunningMean[c]? = some b))
    (fun st : DataStream F => st.enable_stream = true → c ∉ st.Channels)
    (processStream N)
    (fun sb' st hst hP => processStream_frame N s buf c sb' st hst hP)
    streams (s, buf) hc ⟨fun _ => rfl, fun _ h => h, fun _ h => h, fun _ h => h⟩
  refine ⟨h.1, fun hl => ?_, fun hl => ?_, fun hl => ?_⟩
  · rw [List.getElem?_eq_getElem hl]
    exact h.2.1 _ (List.getElem?_eq_getElem hl)
  · rw [List.getElem?_eq_getElem hl]
    exact h.2.2.1 _ (List.getElem?_eq_getElem hl)
  · rw [List.getElem?_eq_getElem hl]
    exact h.2.2.2 _ (List.getElem?_eq_getElem hl)

/-- Witness for C4 over the rationals: channel 0 is selected in an enabled stream, channel 1
only in a disabled one; channel 1 keeps its samples and its state. -/
theorem process_pass_through_witness :
    (∀ i, (process (⟨fun _ => -1 / 2, id, id⟩ : MathOps ℚ)
        ⟨Statistic.MEAN, 1000, [1, 2], [3, 4], [false, true]⟩
        [⟨true, 2, 1000, [0]⟩, ⟨false, 2, 1000, [1]⟩] (fun _ _ => 7)).2 1 i = 7) ∧
    (process (⟨fun _ => -1 / 2, id, id⟩ : MathOps ℚ)
        ⟨Statistic.MEAN, 1000, [1, 2], [3, 4], [false, true]⟩
        [⟨true, 2, 1000, [0]⟩, ⟨false, 2, 1000, [1]⟩] (fun _ _ => 7)).1.currMean[1]? = some 2 ∧
    (process (⟨fun _ => -1 / 2, id, id⟩ : MathOps ℚ)
        ⟨Statistic.MEAN, 1000, [1, 2], [3, 4], [false, true]⟩
        [⟨true, 2, 1000, [0]⟩, ⟨false, 2, 1000, [1]⟩] (fun _ _ => 7)).1.currVar[1]? = some 4 ∧
    (process (⟨fun _ => -1 / 2, id, id⟩ : MathOps ℚ)
        ⟨Statistic.MEAN, 1000, [1, 2], [3, 4], [false, true]⟩
        [⟨true, 2, 1000, [0]⟩, ⟨false, 2, 1000, [1]⟩]
        (fun _ _ => 7)).1.startingRunningMean[1]? = some true ∧
    (process (⟨fun _ => -1 / 2, id, id⟩ : MathOps ℚ)
        ⟨Statistic.MEAN, 1000, [1, 2], [3, 4], [false, true]⟩
        [⟨true, 2, 1000, [0]⟩, ⟨false, 2, 1000, [1]⟩] (fun _ _ => 7)).2 0 0 = 4 := by
  have h := process_pass_through (⟨fun _ => -1 / 2, id, id⟩ : MathOps ℚ)
    ⟨Statistic.MEAN, 1000, [1, 2], [3, 4], [false, true]⟩
    [⟨true, 2, 1000, [0]⟩, ⟨false, 2, 1000, [1]⟩] (fun _ _ => 7) 1 (by simp)
  exact ⟨h.1, h.2.1 (by decide), h.2.2.1 (by decide), h.2.2.2 (by decide), by decide!⟩

end ContinuousStats

/-! ## Resizing the running state -/

section resize

variable {α : Type}

theorem insertMultiple_at_end (xs : List α) (v : α) (k : Nat) (hk : 0 < k) :
    insertMultiple xs (-1) v (k : Int) = xs ++ List.replicate k v := by
  have h : (0 : Int) < (k : Int) := by exact_mod_cast hk
  simp [insertMultiple, h]

theorem removeLast_of_le (xs : List α) (k : Nat) (hk : 0 < k) (hle : k ≤ xs.length) :
    removeLast xs (k : Int) = xs.take (xs.length - k) := by
  have h : (0 : Int) < (k : Int) := by exact_mod_cast hk
  have h2 : ¬ ((k : Int) > (xs.length : Int)) := by
    have : (k : Int) ≤ (xs.length : Int) := by exact_mod_cast hle
    omega
  simp [removeLast, h, h2]

theorem insertMultiple_mem (xs : List α) (a : α) (k : Int) (v : α)
    (hv : v ∈ insertMultiple xs (-1) a k) : v ∈ xs ∨ v = a := by
  unfold insertMultiple at hv
  split at hv
  · rcases List.mem_append.mp hv with h | h
    · exact Or.inl h
    · exact Or.inr (List.eq_of_mem_replicate h)
  · exact Or.inl hv

theorem removeLast_mem (xs : List α) (k : Int) (v : α) (hv : v ∈ removeLast xs k) :
    v ∈ xs := by
  unfold removeLast at hv
  split at hv
  · exact List.mem_of_mem_take hv
  · exact hv

end resize

namespace ContinuousStats

variable {F : Type} [Field F]

/-- C5. Growing.  When `updateSettings` sees an input count that exceeds the tracked count
(`currMean.size ()`) by `k > 0`, each of the three arrays is the old array followed by `k` new
entries: the pre-existing entries are unchanged, the new ones are mean 0, variance 0 and a
cold-start flag that is true. -/
theorem updateSettings_grow (s : ContinuousStats F) (numInputs k : Nat) (windowMs stat : Int)
    (hk : 0 < k) (h : numInputs = s.currMean.length + k) :
    (updateSettings s numInputs windowMs stat).currMean = s.currMean ++ List.replicate k 0 ∧
    (updateSettings s numInputs windowMs stat).currVar = s.currVar ++ List.replicate k 0 ∧
    (updateSettings s numInputs windowMs stat).startingRunningMean =
      s.startingRunningMean ++ List.replicate k true := by
  have e : (numInputs : Int) - (s.currMean.length : Int) = (k : Int) := by
    rw [h]; push_cast; ring
  have hpos : (k : Int) > 0 := by exact_mod_cast hk
  simp [updateSettings, e, hpos, insertMultiple_at_end _ _ k hk]

/-- Witness for C5: two channels, the first warm, grown to four. -/
theorem updateSettings_grow_witness :
    (updateSettings (⟨Statistic.MEAN, 1000, [5, 6], [7, 8], [false, true]⟩ : ContinuousStats ℚ)
        4 1000 0).currMean = [5, 6, 0, 0] ∧
    (updateSettings (⟨Statistic.MEAN, 1000, [5, 6], [7, 8], [false, true]⟩ : ContinuousStats ℚ)
        4 1000 0).currVar = [7, 8, 0, 0] ∧
    (updateSettings (⟨Statistic.MEAN, 1000, [5, 6], [7, 8], [false, true]⟩ : ContinuousStats ℚ)
        4 1000 0).startingRunningMean = [false, true, true, true] :=
  updateSettings_grow (⟨Statistic.MEAN, 1000, [5, 6], [7, 8], [false, true]⟩ : ContinuousStats ℚ)
    4 2 1000 0 (by decide) (by decide)

/-- C6. Shrinking.  When `updateSettings` sees an input count that is `k > 0` below the tracked
count (`currMean.size ()`), and each array holds at least `k` entries (in every reachable state
the three lengths agree), exactly the last `k` entries of each array are removed: each new array
is the old one cut to its first `length - k` entries, so the remaining entries are unchanged. -/
theorem updateSettings_shrink (s : ContinuousStats F) (numInputs k : Nat) (windowMs stat : Int)
    (hk : 0 < k) (h : s.currMean.length = numInputs + k)
    (hv : k ≤ s.currVar.length) (hf : k ≤ s.startingRunningMean.length) :
    (updateSettings s numInputs windowMs stat).currMean = s.currMean.take numInputs ∧
    (updateSettings s numInputs windowMs stat).currVar =
      s.currVar.take (s.currVar.length - k) ∧
    (updateSettings s numInputs windowMs stat).startingRunningMean =
      s.startingRunningMean.take (s.startingRunningMean.length - k) ∧
    (updateSettings s numInputs windowMs stat).currMean.length + k = s.currMean.length ∧
    (updateSettings s numInputs windowMs stat).currVar.length + k = s.currVar.length ∧
    (updateSettings s numInputs windowMs stat).startingRunningMean.length + k =
      s.startingRunningMean.length := by
  have e : -((numInputs : Int) - (s.currMean.length : Int)) = (k : Int) := by
    rw [h]; push_cast; ring
  have hneg : (numInputs : Int) - (s.currMean.length : Int) < 0 := by
    have : (0 : Int) < (k : Int) := by exact_mod_cast hk
    omega
  have hnpos : ¬ ((numInputs : Int) - (s.currMean.length : Int) > 0) := by omega
  have hm : k ≤ s.currMean.length := by omega
  have em : s.currMean.length - k = numInputs := by omega
  simp only [updateSettings, hnpos, hneg, if_true, if_false, e, removeLast_of_le _ k hk hm,
    removeLast_of_le _ k hk hv, removeLast_of_le _ k hk hf, em, List.length_take]
  simp only [true_and, Nat.min_def]
  refine ⟨?_, ?_, ?_⟩ <;> split <;> omega

/-- Witness for C6: three channels cut to one. -/
theorem updateSettings_shrink_witness :
    (updateSettings (⟨Statistic.MEAN, 1000, [5, 6, 7], [1, 2, 3], [false, true, false]⟩ :
        ContinuousStats ℚ) 1 1000 0).currMean = [5] ∧
    (updateSettings (⟨Statistic.MEAN, 1000, [5, 6, 7], [1, 2, 3], [false, true, false]⟩ :
        ContinuousStats ℚ) 1 1000 0).currVar = [1] ∧
    (updateSettings (⟨Statistic.MEAN, 1000, [5, 6, 7], [1, 2, 3], [false, true, false]⟩ :
        ContinuousStats ℚ) 1 1000 0).startingRunningMean = [false] := by
  have h := updateSettings_shrink
    (⟨Statistic.MEAN, 1000, [5, 6, 7], [1, 2, 3], [false, true, false]⟩ : ContinuousStats ℚ)
    1 2 1000 0 (by decide) (by decide) (by decide) (by decide)
  exact ⟨h.1, h.2.1, h.2.2.1⟩

end ContinuousStats

/-! ## The number of entries -/

namespace ContinuousStats

variable {F : Type} [Field F]

theorem selectedBelow_iff (n : Nat) (streams : List (DataStream F)) :
    selectedBelow n streams = true ↔
      ∀ st ∈ streams, st.enable_stream = true → ∀ c ∈ st.Channels, c < n := by
  unfold selectedBelow
  simp only [List.all_eq_true, Bool.or_eq_true, Bool.not_eq_true', decide_eq_true_eq]
  constructor
  · intro h st hst he c hc
    rcases h st hst with h1 | h1
    · rw [he] at h1; exact Bool.noConfusion h1
    · exact h1 c hc
  · intro h st hst
    by_cases he : st.enable_stream = true
    · exact Or.inr (h st hst he)
    · exact Or.inl (by simpa using he)

/-- With the three arrays of one length, `updateSettings` leaves them all at the input count. -/
theorem updateSettings_lengths (s : ContinuousStats F) (n : Nat) (windowMs stat : Int)
    (hv : s.currVar.length = s.currMean.length)
    (hf : s.startingRunningMean.length = s.currMean.length) :
    (updateSettings s n windowMs stat).currMean.length = n ∧
    (updateSettings s n windowMs stat).currVar.length = n ∧
    (updateSettings s n windowMs stat).startingRunningMean.length = n := by
  rcases Nat.lt_trichotomy s.currMean.length n with hlt | heq | hgt
  · obtain ⟨k, hk⟩ : ∃ k, n = s.currMean.length + k := ⟨n - s.currMean.length, by omega⟩
    have hk0 : 0 < k := by omega
    have e : (n : Int) - (s.currMean.length : Int) = (k : Int) := by
      rw [hk]; push_cast; ring
    have hpos : (k : Int) > 0 := by exact_mod_cast hk0
    simp only [updateSettings, e, hpos, if_true, insertMultiple_at_end _ _ k hk0,
      List.length_append, List.length_replicate]
    omega
  · have e : (n : Int) - (s.currMean.length : Int) = 0 := by rw [heq]; ring
    simp only [updateSettings, e, gt_iff_lt, lt_self_iff_false, if_false]
    omega
  · obtain ⟨k, hk⟩ : ∃ k, s.currMean.length = n + k := ⟨s.currMean.length - n, by omega⟩
    have hk0 : 0 < k := by omega
    have e : (n : Int) - (s.currMean.length : Int) = -(k : Int) := by
      rw [hk]; push_cast; ring
    have hpos : (0 : Int) < (k : Int) := by exact_mod_cast hk0
    have h1 : ¬ (-(k : Int) > 0) := by omega
    have h2 : -(k : Int) < 0 := by omega
    simp only [updateSettings, e, h1, h2, if_true, if_false, neg_neg,
      removeLast_of_le _ k hk0 (show k ≤ s.currMean.length by omega),
      removeLast_of_le _ k hk0 (show k ≤ s.currVar.length by omega),
      removeLast_of_le _ k hk0 (show k ≤ s.startingRunningMean.length by omega),
      List.length_take]
    omega

/-- When the input count is the tracked count, `updateSettings` leaves the arrays alone. -/
theorem updateSettings_same_count (s : ContinuousStats F) (n : Nat) (windowMs stat : Int)
    (h : n = s.currMean.length) :
    (updateSettings s n windowMs stat).currMean = s.currMean ∧
    (updateSettings s n windowMs stat).currVar = s.currVar ∧
    (updateSettings s n windowMs stat).startingRunningMean = s.startingRunningMean := by
  have e : (n : Int) - (s.currMean.length : Int) = 0 := by rw [h]; ring
  simp [updateSettings, e]

/-- A parameter change leaves the three arrays alone. -/
theorem parameterValueChanged_arrays (s : ContinuousStats F) (p : Parameter) :
    (parameterValueChanged s p).currMean = s.currMean ∧
    (parameterValueChanged s p).currVar = s.currVar ∧
    (parameterValueChanged s p).startingRunningMean = s.startingRunningMean := by
  unfold parameterValueChanged
  split
  · exact ⟨rfl, rfl, rfl⟩
  · split <;> exact ⟨rfl, rfl, rfl⟩

/-- Updating a channel whose index is inside the arrays keeps their lengths. -/
theorem processChannel_lengths (N : MathOps F) (n : Nat) (spm : F)
    (sb : ContinuousStats F × AudioBuffer F) (chan : Nat)
    (hm : chan < sb.1.currMean.length) (hv : chan < sb.1.currVar.length) :
    (processChannel N n spm sb chan).1.currMean.length = sb.1.currMean.length ∧
    (processChannel N n spm sb chan).1.currVar.length = sb.1.currVar.length ∧
    (processChannel N n spm sb chan).1.startingRunningMean.length =
      sb.1.startingRunningMean.length := by
  obtain ⟨s, buf⟩ := sb
  by_cases hf : juceGet false s.startingRunningMean chan = true
  · rw [processChannel_cold_state N n spm s buf chan hf]
    exact ⟨juceSet_length_of_lt _ chan _ hm, juceSet_length_of_lt _ chan _ hv,
      juceSet_length_of_lt _ chan _ (juceGet_true_lt _ _ hf)⟩
  · have hf0 : juceGet false s.startingRunningMean chan = false := by simpa using hf
    rw [processChannel_warm_state N n spm s buf chan hf0]
    exact ⟨juceSet_length_of_lt _ chan _ hm, juceSet_length_of_lt _ chan _ hv, rfl⟩

/-- A `process` call whose selected channels are below `n` keeps arrays of length `n`. -/
theorem process_lengths (N : MathOps F) (n : Nat) (s : ContinuousStats F)
    (streams : List (DataStream F)) (buf : AudioBuffer F)
    (hsel : selectedBelow n streams = true)
    (h : s.currMean.length = n ∧ s.currVar.length = n ∧ s.startingRunningMean.length = n) :
    (process N s streams buf).1.currMean.length = n ∧
    (process N s streams buf).1.currVar.length = n ∧
    (process N s streams buf).1.startingRunningMean.length = n := by
  rw [selectedBelow_iff] at hsel
  refine foldl_keeps
    (fun sb : ContinuousStats F × AudioBuffer F => sb.1.currMean.length = n ∧
      sb.1.currVar.length = n ∧ sb.1.startingRunningMean.length = n)
    (fun st : DataStream F => st.enable_stream = true → ∀ c ∈ st.Channels, c < n)
    (processStream N) ?_ streams (s, buf) hsel h
  intro sb st hst hP
  unfold processStream
  by_cases he : st.enable_stream = true
  · simp only [he, if_true]
    refine foldl_keeps
      (fun sb : ContinuousStats F × AudioBuffer F => sb.1.currMean.length = n ∧
        sb.1.currVar.length = n ∧ sb.1.startingRunningMean.length = n)
      (fun c : Nat => c < n) _ ?_ st.Channels sb (hst he) hP
    intro sb' chan hc hP'
    have hl := processChannel_lengths N st.nSamples (st.sampleRate / 1000) sb' chan
      (by rw [hP'.1]; exact hc) (by rw [hP'.2.1]; exact hc)
    exact ⟨hl.1.trans hP'.1, hl.2.1.trans hP'.2.1, hl.2.2.trans hP'.2.2⟩
  · simp only [he]
    exact hP

/-- In every reachable state the three arrays have one length. -/
theorem reachable_lengths (N : MathOps F) (s : ContinuousStats F) (hs : Reachable N s) :
    s.currVar.length = s.currMean.length ∧ s.startingRunningMean.length = s.currMean.length := by
  induction hs with
  | init s h =>
    simp only [isInitial, Bool.and_eq_true, List.isEmpty_iff] at h
    rw [h.1.1, h.1.2, h.2]
    exact ⟨rfl, rfl⟩
  | settings s n w st _ ih =>
    have h := updateSettings_lengths s n w st ih.1 ih.2
    exact ⟨h.2.1.trans h.1.symm, h.2.2.trans h.1.symm⟩
  | param s p _ ih =>
    have h := parameterValueChanged_arrays s p
    rw [h.1, h.2.1, h.2.2]
    exact ih
  | process s streams buf _ hsel ih =>
    have h := process_lengths N s.currMean.length s streams buf hsel ⟨rfl, ih.1, ih.2⟩
    exact ⟨h.2.1.trans h.1.symm, h.2.2.trans h.1.symm⟩

/-- Arrays of length `n` keep it through later parameter changes and `process` calls. -/
theorem laterCalls_lengths (N : MathOps F) (n : Nat) (s t : ContinuousStats F)
    (hl : LaterCalls N n s t)
    (h : s.currMean.length = n ∧ s.currVar.length = n ∧ s.startingRunningMean.length = n) :
    t.currMean.length = n ∧ t.currVar.length = n ∧ t.startingRunningMean.length = n := by
  induction hl with
  | refl => exact h
  | param t p _ ih =>
    have hp := parameterValueChanged_arrays t p
    rw [hp.1, hp.2.1, hp.2.2]
    exact ih
  | process t streams buf _ hsel ih => exact process_lengths N n t streams buf hsel ih

/-- C7. Entry-count invariant.  In every state reachable from the constructor's state (through
`updateSettings`, parameter changes, and `process` calls whose selected channels are below the
tracked count) the three arrays have the same length.  After `updateSettings` with `n` input
channels that length is `n`; when `n` is already the tracked count the arrays are unchanged; and
the length stays `n` through every later parameter change and every later `process` call whose
selected channel indices are all below `n`. -/
theorem entry_count_invariant (N : MathOps F) (s : ContinuousStats F) (hs : Reachable N s) :
    (s.currVar.length = s.currMean.length ∧
      s.startingRunningMean.length = s.currMean.length) ∧
    ∀ (n : Nat) (windowMs stat : Int),
      ((updateSettings s n windowMs stat).currMean.length = n ∧
        (updateSettings s n windowMs stat).currVar.length = n ∧
        (updateSettings s n windowMs stat).startingRunningMean.length = n) ∧
      (n = s.currMean.length →
        (updateSettings s n windowMs stat).currMean = s.currMean ∧
        (updateSettings s n windowMs stat).currVar = s.currVar ∧
        (updateSettings s n windowMs stat).startingRunningMean = s.startingRunningMean) ∧
      ∀ t, LaterCalls N n (updateSettings s n windowMs stat) t →
        t.currMean.length = n ∧ t.currVar.length = n ∧ t.startingRunningMean.length = n := by
  have hl := reachable_lengths N s hs
  refine ⟨hl, fun n w st => ⟨updateSettings_lengths s n w st hl.1 hl.2,
    updateSettings_same_count s n w st, fun t ht => ?_⟩⟩
  exact laterCalls_lengths N n _ t ht (updateSettings_lengths s n w st hl.1 hl.2)

/-- Witness for C7 over the rationals: from the constructor's state, `updateSettings` with three
inputs, then a `process` call on channels 0 and 2, then a change of "window_ms": three entries
in each array throughout. -/
theorem entry_count_invariant_witness :
    (updateSettings (⟨Statistic.MEAN, 0, [], [], []⟩ : ContinuousStats ℚ) 3 1000 0).currMean.length
      = 3 ∧
    (parameterValueChanged
      (process (⟨fun _ => -1 / 2, id, id⟩ : MathOps ℚ)
        (updateSettings (⟨Statistic.MEAN, 0, [], [], []⟩ : ContinuousStats ℚ) 3 1000 0)
        [⟨true, 2, 1000, [0, 2]⟩] (fun _ _ => 7)).1
      ⟨"window_ms", 500⟩).startingRunningMean.length = 3 := by
  have h := (entry_count_invariant (⟨fun _ => -1 / 2, id, id⟩ : MathOps ℚ)
    ⟨Statistic.MEAN, 0, [], [], []⟩ (Reachable.init _ rfl)).2 3 1000 0
  refine ⟨h.1.1, (h.2.2 _ ?_).2.2⟩
  exact LaterCalls.param _ _ _ (LaterCalls.process _ _ _ _ (LaterCalls.refl _) (by decide))

end ContinuousStats

/-! ## The decay coefficient -/

namespace ContinuousStats

/-- For a positive time constant in samples the decay coefficient lies strictly between 0
and 1. -/
theorem alphaOf_real_bounds (sqrt toFloat : ℝ → ℝ) (timeConstMs samplesPerMs : ℝ)
    (h : 0 < timeConstMs * samplesPerMs) :
    0 < alphaOf ⟨fun t => Real.exp t - 1, sqrt, toFloat⟩ timeConstMs samplesPerMs ∧
    alphaOf ⟨fun t => Real.exp t - 1, sqrt, toFloat⟩ timeConstMs samplesPerMs < 1 := by
  rw [alphaOf_real]
  have hneg : -1 / (timeConstMs * samplesPerMs) < 0 := div_neg_of_neg_of_pos (by norm_num) h
  have h1 : Real.exp (-1 / (timeConstMs * samplesPerMs)) < 1 := Real.exp_lt_one_iff.mpr hneg
  have h2 : 0 < Real.exp (-1 / (timeConstMs * samplesPerMs)) := Real.exp_pos _
  constructor <;> linarith

theorem timeConstSamp_pos (timeConstMs sampleRate : ℝ) (h10 : 10 ≤ timeConstMs)
    (hsr : 0 < sampleRate) : 0 < timeConstMs * (sampleRate / 1000) := by
  have h1 : 0 < timeConstMs := by linarith
  have h2 : 0 < sampleRate / 1000 := by positivity
  exact mul_pos h1 h2

/-- C8. Alpha bounds.  For a time constant in `[10, 5000]` and a positive sample rate, and more
generally whenever `timeConstMs * (sampleRate / 1000)` is positive, the decay coefficient
computed in `process`, `-expm1 (-1 / (timeConstMs * (sampleRate / 1000)))`, equals
`1 - exp (-1 / (timeConstMs * (sampleRate / 1000)))` and lies strictly between 0 and 1. -/
theorem alpha_bounds (sqrt toFloat : ℝ → ℝ) (timeConstMs sampleRate : ℝ)
    (h : (10 ≤ timeConstMs ∧ timeConstMs ≤ 5000 ∧ 0 < sampleRate) ∨
      0 < timeConstMs * (sampleRate / 1000)) :
    alphaOf ⟨fun t => Real.exp t - 1, sqrt, toFloat⟩ timeConstMs (sampleRate / 1000) =
      1 - Real.exp (-1 / (timeConstMs * (sampleRate / 1000))) ∧
    0 < alphaOf ⟨fun t => Real.exp t - 1, sqrt, toFloat⟩ timeConstMs (sampleRate / 1000) ∧
    alphaOf ⟨fun t => Real.exp t - 1, sqrt, toFloat⟩ timeConstMs (sampleRate / 1000) < 1 := by
  have hpos : 0 < timeConstMs * (sampleRate / 1000) := by
    rcases h with ⟨h10, _, hsr⟩ | h
    · exact timeConstSamp_pos timeConstMs sampleRate h10 hsr
    · exact h
  exact ⟨alphaOf_real _ _ _ _, alphaOf_real_bounds sqrt toFloat timeConstMs _ hpos⟩

/-- Witness for C8: the default time constant of 1000 ms at 30 kHz, and a product that is
positive with both factors negative. -/
theorem alpha_bounds_witness :
    (0 < alphaOf ⟨fun t => Real.exp t - 1, Real.sqrt, id⟩ (1000 : ℝ) (30000 / 1000) ∧
      alphaOf ⟨fun t => Real.exp t - 1, Real.sqrt, id⟩ (1000 : ℝ) (30000 / 1000) < 1) ∧
    (0 < alphaOf ⟨fun t => Real.exp t - 1, Real.sqrt, id⟩ (-2 : ℝ) (-1000 / 1000) ∧
      alphaOf ⟨fun t => Real.exp t - 1, Real.sqrt, id⟩ (-2 : ℝ) (-1000 / 1000) < 1) :=
  ⟨(alpha_bounds Real.sqrt id 1000 30000 (Or.inl (by norm_num))).2,
    (alpha_bounds Real.sqrt id (-2) (-1000) (Or.inr (by norm_num))).2⟩

end ContinuousStats

/-! ## The variance is never negative -/

namespace ContinuousStats

section ordered

variable {K : Type} [LinearOrderedField K]

/-- One step keeps a non-negative variance non-negative when `0 ≤ alpha ≤ 1`. -/
theorem specStep_var_nonneg (alpha : K) (h0 : 0 ≤ alpha) (h1 : alpha ≤ 1) (mv : K × K) (x : K)
    (hv : 0 ≤ mv.2) : 0 ≤ (specStep alpha mv x).2 := by
  simp only [specStep]
  have h2 : 0 ≤ 1 - alpha := by linarith
  have h3 : 0 ≤ alpha * (x - mv.1) ^ 2 := mul_nonneg h0 (sq_nonneg _)
  exact mul_nonneg h2 (by linarith)

theorem specFold_var_nonneg (alpha : K) (h0 : 0 ≤ alpha) (h1 : alpha ≤ 1) :
    ∀ (xs : List K) (mv : K × K), 0 ≤ mv.2 → 0 ≤ (specFold alpha mv xs).2 := by
  intro xs
  induction xs with
  | nil => intro mv h; exact h
  | cons x xs ih =>
    intro mv h
    exact ih (specStep alpha mv x) (specStep_var_nonneg alpha h0 h1 mv x h)

theorem juceGet_nonneg (xs : List K) (i : Nat) (h : ∀ v ∈ xs, 0 ≤ v) : 0 ≤ juceGet 0 xs i := by
  unfold juceGet
  split
  · exact h _ (List.get_mem _ _ _)
  · exact le_refl 0

theorem juceSet_nonneg (xs : List K) (i : Nat) (a : K) (h : ∀ v ∈ xs, 0 ≤ v) (ha : 0 ≤ a) :
    ∀ v ∈ juceSet xs i a, 0 ≤ v := by
  intro v hv
  unfold juceSet at hv
  split at hv
  · rcases List.mem_or_eq_of_mem_set hv with h' | h'
    · exact h v h'
    · rw [h']; exact ha
  · rcases List.mem_append.mp hv with h' | h'
    · exact h v h'
    · rw [List.mem_singleton.mp h']; exact ha

/-- The update of one channel keeps every stored variance non-negative when `0 ≤ alpha ≤ 1`. -/
theorem processChannel_var_nonneg (N : MathOps K) (n : Nat) (spm : K)
    (sb : ContinuousStats K × AudioBuffer K) (chan : Nat)
    (hnn : ∀ v ∈ sb.1.currVar, 0 ≤ v)
    (ha0 : 0 ≤ alphaOf N sb.1.timeConstMs spm) (ha1 : alphaOf N sb.1.timeConstMs spm ≤ 1) :
    ∀ v ∈ (processChannel N n spm sb chan).1.currVar, 0 ≤ v := by
  obtain ⟨s, buf⟩ := sb
  by_cases hf : juceGet false s.startingRunningMean chan = true
  · rw [processChannel_cold_state N n spm s buf chan hf]
    exact juceSet_nonneg _ chan _ hnn (specFold_var_nonneg _ ha0 ha1 _ _ (le_refl 0))
  · have hf0 : juceGet false s.startingRunningMean chan = false := by simpa using hf
    rw [processChannel_warm_state N n spm s buf chan hf0]
    exact juceSet_nonneg _ chan _ hnn
      (specFold_var_nonneg _ ha0 ha1 _ _ (juceGet_nonneg _ chan hnn))

theorem processChannel_timeConstMs (N : MathOps K) (n : Nat) (spm : K)
    (sb : ContinuousStats K × AudioBuffer K) (chan : Nat) :
    (processChannel N n spm sb chan).1.timeConstMs = sb.1.timeConstMs := by
  simp [processChannel]

theorem positiveRates_iff (streams : List (DataStream K)) :
    positiveRates streams = true ↔
      ∀ st ∈ streams, st.enable_stream = true → 0 < st.sampleRate := by
  unfold positiveRates
  simp only [List.all_eq_true, Bool.or_eq_true, Bool.not_eq_true', decide_eq_true_eq]
  constructor
  · intro h st hst he
    rcases h st hst with h1 | h1
    · rw [he] at h1; exact Bool.noConfusion h1
    · exact h1
  · intro h st hst
    by_cases he : st.enable_stream = true
    · exact Or.inr (h st hst he)
    · exact Or.inl (by simpa using he)

/-- The entries of the variance array after `updateSettings` are old entries or zero. -/
theorem updateSettings_currVar_mem (s : ContinuousStats K) (n : Nat) (windowMs stat : Int)
    (v : K) (hv : v ∈ (updateSettings s n windowMs stat).currVar) : v ∈ s.currVar ∨ v = 0 := by
  unfold updateSettings at hv
  simp only at hv
  split at hv
  · exact insertMultiple_mem _ _ _ v hv
  · split at hv
    · exact Or.inl (removeLast_mem _ _ v hv)
    · exact Or.inl hv

theorem updateSettings_timeConstMs (s : ContinuousStats K) (n : Nat) (windowMs stat : Int) :
    (updateSettings s n windowMs stat).timeConstMs = (windowMs : K) := by
  simp [updateSettings]

end ordered

end ContinuousStats

namespace ContinuousStats

/-- A `process` call with positive sample rates and selected channels inside the arrays keeps
the lengths, the non-negative variances and the time constant. -/
theorem process_var_nonneg (sqrt toFloat : ℝ → ℝ) (s : ContinuousStats ℝ)
    (streams : List (DataStream ℝ)) (buf : AudioBuffer ℝ)
    (hsel : selectedBelow s.currMean.length streams = true)
    (hrate : positiveRates streams = true)
    (hlen : s.currVar.length = s.currMean.length ∧
      s.startingRunningMean.length = s.currMean.length)
    (hnn : ∀ v ∈ s.currVar, 0 ≤ v)
    (htc : 0 < s.currMean.length → 10 ≤ s.timeConstMs ∧ s.timeConstMs ≤ 5000) :
    ((process ⟨fun t => Real.exp t - 1, sqrt, toFloat⟩ s streams buf).1.currMean.length =
        s.currMean.length ∧
      (process ⟨fun t => Real.exp t - 1, sqrt, toFloat⟩ s streams buf).1.currVar.length =
        s.currMean.length ∧
      (process ⟨fun t => Real.exp t - 1, sqrt, toFloat⟩ s streams buf).1.startingRunningMean.length
        = s.currMean.length) ∧
    (∀ v ∈ (process ⟨fun t => Real.exp t - 1, sqrt, toFloat⟩ s streams buf).1.currVar, 0 ≤ v) ∧
    (process ⟨fun t => Real.exp t - 1, sqrt, toFloat⟩ s streams buf).1.timeConstMs =
      s.timeConstMs := by
  rw [selectedBelow_iff] at hsel
  rw [positiveRates_iff] at hrate
  refine foldl_keeps
    (fun sb : ContinuousStats ℝ × AudioBuffer ℝ =>
      (sb.1.currMean.length = s.currMean.length ∧ sb.1.currVar.length = s.currMean.length ∧
        sb.1.startingRunningMean.length = s.currMean.length) ∧
      (∀ v ∈ sb.1.currVar, 0 ≤ v) ∧ sb.1.timeConstMs = s.timeConstMs)
    (fun st : DataStream ℝ => st.enable_stream = true →
      (∀ c ∈ st.Channels, c < s.currMean.length) ∧ 0 < st.sampleRate)
    (processStream ⟨fun t => Real.exp t - 1, sqrt, toFloat⟩) ?_ streams (s, buf)
    (fun st hst he => ⟨hsel st hst he, hrate st hst he⟩)
    ⟨⟨rfl, hlen.1, hlen.2⟩, hnn, rfl⟩
  intro sb st hst hP
  unfold processStream
  by_cases he : st.enable_stream = true
  · simp only [he, if_true]
    refine foldl_keeps
      (fun sb : ContinuousStats ℝ × AudioBuffer ℝ =>
        (sb.1.currMean.length = s.currMean.length ∧ sb.1.currVar.length = s.currMean.length ∧
          sb.1.startingRunningMean.length = s.currMean.length) ∧
        (∀ v ∈ sb.1.currVar, 0 ≤ v) ∧ sb.1.timeConstMs = s.timeConstMs)
      (fun c : Nat => c < s.currMean.length) _ ?_ st.Channels sb (hst he).1 hP
    intro sb' chan hc hP'
    have hl := processChannel_lengths ⟨fun t => Real.exp t - 1, sqrt, toFloat⟩ st.nSamples
      (st.sampleRate / 1000) sb' chan (by rw [hP'.1.1]; exact hc) (by rw [hP'.1.2.1]; exact hc)
    have ht := htc (by omega)
    have ha := alphaOf_real_bounds sqrt toFloat sb'.1.timeConstMs (st.sampleRate / 1000)
      (by rw [hP'.2.2]; exact timeConstSamp_pos _ _ ht.1 (hst he).2)
    refine ⟨⟨hl.1.trans hP'.1.1, hl.2.1.trans hP'.1.2.1, hl.2.2.trans hP'.1.2.2⟩, ?_, ?_⟩
    · exact processChannel_var_nonneg _ _ _ sb' chan hP'.2.1 (le_of_lt ha.1) (le_of_lt ha.2)
    · rw [processChannel_timeConstMs]
      exact hP'.2.2
  · simp only [he]
    exact hP

/-- What holds in every state reachable under the host's contract: one length for the three
arrays, no negative stored variance, and a time constant in `[10, 5000]` once there is a
channel. -/
theorem reachableInRange_inv (sqrt toFloat : ℝ → ℝ) (s : ContinuousStats ℝ)
    (hs : ReachableInRange ⟨fun t => Real.exp t - 1, sqrt, toFloat⟩ s) :
    (s.currVar.length = s.currMean.length ∧
      s.startingRunningMean.length = s.currMean.length) ∧
    (∀ v ∈ s.currVar, 0 ≤ v) ∧
    (0 < s.currMean.length → 10 ≤ s.timeConstMs ∧ s.timeConstMs ≤ 5000) := by
  induction hs with
  | init s h =>
    simp only [isInitial, Bool.and_eq_true, List.isEmpty_iff] at h
    rw [h.1.1, h.1.2, h.2]
    simp
  | settings s n w st _ h10 h5000 ih =>
    have hl := updateSettings_lengths s n w st ih.1.1 ih.1.2
    refine ⟨⟨hl.2.1.trans hl.1.symm, hl.2.2.trans hl.1.symm⟩, ?_, fun _ => ?_⟩
    · intro v hv
      rcases updateSettings_currVar_mem s n w st v hv with h | h
      · exact ih.2.1 v h
      · rw [h]
    · rw [updateSettings_timeConstMs]
      exact ⟨by exact_mod_cast h10, by exact_mod_cast h5000⟩
  | param s p _ hp ih =>
    have ha := parameterValueChanged_arrays s p
    rw [ha.1, ha.2.1, ha.2.2]
    refine ⟨ih.1, ih.2.1, fun hpos => ?_⟩
    unfold parameterValueChanged
    by_cases hw : equalsIgnoreCase p.name "window_ms" = true
    · rw [if_pos hw]
      show (10 : ℝ) ≤ (p.value : ℝ) ∧ (p.value : ℝ) ≤ 5000
      exact ⟨by exact_mod_cast (hp hw).1, by exact_mod_cast (hp hw).2⟩
    · rw [if_neg hw]
      by_cases hst : equalsIgnoreCase p.name "stat" = true
      · rw [if_pos hst]
        exact ih.2.2 hpos
      · rw [if_neg hst]
        exact ih.2.2 hpos
  | process s streams buf _ hsel hrate ih =>
    have h := process_var_nonneg sqrt toFloat s streams buf hsel hrate ih.1 ih.2.1 ih.2.2
    refine ⟨⟨h.1.2.1.trans h.1.1.symm, h.1.2.2.trans h.1.1.symm⟩, h.2.1, fun hpos => ?_⟩
    rw [h.2.2]
    exact ih.2.2 (by rw [← h.1.1]; exact hpos)

/-- The variance after sample `i` of a block is the variance stored by the block cut after
sample `i`, and under STDDEV the sample written at `i` is its square root. -/
theorem processChannel_out_stddev {F : Type} [Field F] (N : MathOps F) (n : Nat) (spm : F)
    (s : ContinuousStats F) (buf : AudioBuffer F) (chan i : Nat) (hi : i < n)
    (hv : chan < s.currVar.length) (hstat : s.currStat = Statistic.STDDEV) :
    (processChannel N n spm (s, buf) chan).2 chan i =
      N.toFloat (N.sqrt (juceGet 0 (processChannel N (i + 1) spm (s, buf) chan).1.currVar chan)) := by
  by_cases hf : juceGet false s.startingRunningMean chan = true
  · rw [processChannel_cold_out N n spm s buf chan hf i (Or.inl hi),
      processChannel_cold_state N (i + 1) spm s buf chan hf]
    simp [statValue, hstat, juceGet_juceSet_same 0 s.currVar chan _ hv]
  · have hf0 : juceGet false s.startingRunningMean chan = false := by simpa using hf
    rw [processChannel_warm_out N n spm s buf chan hf0 i hi,
      processChannel_warm_state N (i + 1) spm s buf chan hf0]
    simp [statValue, hstat, juceGet_juceSet_same 0 s.currVar chan _ hv]

end ContinuousStats

namespace ContinuousStats

/-- C9. Variance is never negative (over the reals).  In every state reachable from the
constructor's state through `updateSettings` and parameter changes with a time constant in
`[10, 5000]` and through `process` calls with positive sample rates, arbitrary sample values and
selected channels below the tracked count, every stored variance is `≥ 0`.  So is the variance
after every individual sample `i` of a block (the variance the block cut after sample `i`
stores), and under STDDEV the sample written at `i` is the square root of that non-negative
number. -/
theorem variance_never_negative (s : ContinuousStats ℝ)
    (hs : ReachableInRange ⟨fun t => Real.exp t - 1, Real.sqrt, id⟩ s) :
    (∀ v ∈ s.currVar, 0 ≤ v) ∧
    ∀ (buf : AudioBuffer ℝ) (chan n i : Nat) (sampleRate : ℝ),
      chan < s.currMean.length → 0 < sampleRate → i < n →
      0 ≤ juceGet 0
        (processChannel ⟨fun t => Real.exp t - 1, Real.sqrt, id⟩ (i + 1) (sampleRate / 1000)
          (s, buf) chan).1.currVar chan ∧
      (s.currStat = Statistic.STDDEV →
        (processChannel ⟨fun t => Real.exp t - 1, Real.sqrt, id⟩ n (sampleRate / 1000)
            (s, buf) chan).2 chan i =
          Real.sqrt (juceGet 0
            (processChannel ⟨fun t => Real.exp t - 1, Real.sqrt, id⟩ (i + 1) (sampleRate / 1000)
              (s, buf) chan).1.currVar chan)) := by
  have hinv := reachableInRange_inv Real.sqrt id s hs
  refine ⟨hinv.2.1, fun buf chan n i sampleRate hc hsr hi => ⟨?_, fun hstat => ?_⟩⟩
  · have ht := hinv.2.2 (by omega)
    have ha := alphaOf_real_bounds Real.sqrt id s.timeConstMs (sampleRate / 1000)
      (timeConstSamp_pos _ _ ht.1 hsr)
    exact juceGet_nonneg _ chan
      (processChannel_var_nonneg _ (i + 1) _ (s, buf) chan hinv.2.1 (le_of_lt ha.1)
        (le_of_lt ha.2))
  · exact processChannel_out_stddev _ n _ s buf chan i hi (by rw [hinv.1.1]; exact hc) hstat

/-- Witness for C9: from the constructor's state, `updateSettings` with one input and a window
of 1000 ms, then a `process` call at 1000 Hz on the block `[-3, 5]`: the variance stored for
channel 0 is not negative, and neither is the variance after the first sample of a further
block. -/
theorem variance_never_negative_witness :
    0 ≤ juceGet 0 (process ⟨fun t => Real.exp t - 1, Real.sqrt, id⟩
        (updateSettings (⟨Statistic.MEAN, 0, [], [], []⟩ : ContinuousStats ℝ) 1 1000 1)
        [⟨true, 2, 1000, [0]⟩] (fun _ i => if i = 0 then -3 else 5)).1.currVar 0 ∧
    0 ≤ juceGet 0 (processChannel ⟨fun t => Real.exp t - 1, Real.sqrt, id⟩ (0 + 1) (1000 / 1000)
        (updateSettings (⟨Statistic.MEAN, 0, [], [], []⟩ : ContinuousStats ℝ) 1 1000 1,
          fun _ _ => 4) 0).1.currVar 0 :=
  ⟨juceGet_nonneg _ 0
    (variance_never_negative
      (process ⟨fun t => Real.exp t - 1, Real.sqrt, id⟩
          (updateSettings (⟨Statistic.MEAN, 0, [], [], []⟩ : ContinuousStats ℝ) 1 1000 1)
          [⟨true, 2, 1000, [0]⟩] (fun _ i => if i = 0 then -3 else 5)).1
      (ReachableInRange.process
        (updateSettings (⟨Statistic.MEAN, 0, [], [], []⟩ : ContinuousStats ℝ) 1 1000 1)
        [⟨true, 2, 1000, [0]⟩] (fun _ i => if i = 0 then -3 else 5)
        (ReachableInRange.settings (⟨Statistic.MEAN, 0, [], [], []⟩ : ContinuousStats ℝ) 1 1000 1
          (ReachableInRange.init (⟨Statistic.MEAN, 0, [], [], []⟩ : ContinuousStats ℝ) rfl)
          (by decide) (by decide))
        (by decide) (by simp [positiveRates]))).1,
    ((variance_never_negative
      (updateSettings (⟨Statistic.MEAN, 0, [], [], []⟩ : ContinuousStats ℝ) 1 1000 1)
      (ReachableInRange.settings (⟨Statistic.MEAN, 0, [], [], []⟩ : ContinuousStats ℝ) 1 1000 1
        (ReachableInRange.init (⟨Statistic.MEAN, 0, [], [], []⟩ : ContinuousStats ℝ) rfl)
        (by decide) (by decide))).2 (fun _ _ => 4) 0 1 0 1000 (by decide) (by norm_num)
      (by decide)).1⟩

end ContinuousStats

/-! ## An empty block on a cold channel -/

namespace ContinuousStats

/-- C10 (the code at an empty block).  A cold channel 0, selected in an enabled stream whose
block has no samples, with 7 left in the buffer at offset 0: lines 67-74 run without looking at
`nSamples`, so the call stores 7 as the mean and clears the flag although no sample was
observed.  The next block `[100]` is then processed as a warm block: under MEAN with
`alpha = 1/2` its first sample becomes `7 + (100 - 7) / 2`, not `100`. -/
theorem empty_block_clears_cold_start :
    (process (⟨fun _ => -1 / 2, id, id⟩ : MathOps ℚ)
        ⟨Statistic.MEAN, 1000, [0], [0], [true]⟩ [⟨true, 0, 1000, [0]⟩]
        (fun _ _ => 7)).1.startingRunningMean = [false] ∧
    (process (⟨fun _ => -1 / 2, id, id⟩ : MathOps ℚ)
        ⟨Statistic.MEAN, 1000, [0], [0], [true]⟩ [⟨true, 0, 1000, [0]⟩]
        (fun _ _ => 7)).1.currMean = [7] ∧
    (process (⟨fun _ => -1 / 2, id, id⟩ : MathOps ℚ)
        (process (⟨fun _ => -1 / 2, id, id⟩ : MathOps ℚ)
          ⟨Statistic.MEAN, 1000, [0], [0], [true]⟩ [⟨true, 0, 1000, [0]⟩] (fun _ _ => 7)).1
        [⟨true, 1, 1000, [0]⟩] (fun _ _ => 100)).2 0 0 = 107 / 2 := by
  refine ⟨by decide!, by decide!, by decide!⟩

end ContinuousStats

/-! ## The statistic and the running state -/

namespace ContinuousStats

variable {F : Type} [Field F]

theorem block_congr (b1 b2 : AudioBuffer F) (chan n : Nat) (h : ∀ i, b1 chan i = b2 chan i) :
    block b1 chan n = block b2 chan n := by
  apply List.map_congr_left
  intro i _
  exact h i

theorem blockFrom_congr (b1 b2 : AudioBuffer F) (chan start n : Nat)
    (h : ∀ i, b1 chan i = b2 chan i) : blockFrom b1 chan start n = blockFrom b2 chan start n := by
  apply List.map_congr_left
  intro i _
  exact h i

/-- The arrays and the time constant after the update of one channel depend on the arrays, the
time constant and the samples of that channel only, not on the statistic. -/
theorem processChannel_state_congr (N : MathOps F) (n : Nat) (spm : F)
    (sb1 sb2 : ContinuousStats F × AudioBuffer F) (chan : Nat)
    (hm : sb1.1.currMean = sb2.1.currMean) (hv : sb1.1.currVar = sb2.1.currVar)
    (hf : sb1.1.startingRunningMean = sb2.1.startingRunningMean)
    (ht : sb1.1.timeConstMs = sb2.1.timeConstMs) (hb : ∀ i, sb1.2 chan i = sb2.2 chan i) :
    (processChannel N n spm sb1 chan).1.currMean = (processChannel N n spm sb2 chan).1.currMean ∧
    (processChannel N n spm sb1 chan).1.currVar = (processChannel N n spm sb2 chan).1.currVar ∧
    (processChannel N n spm sb1 chan).1.startingRunningMean =
      (processChannel N n spm sb2 chan).1.startingRunningMean ∧
    (processChannel N n spm sb1 chan).1.timeConstMs =
      (processChannel N n spm sb2 chan).1.timeConstMs := by
  obtain ⟨s1, b1⟩ := sb1
  obtain ⟨s2, b2⟩ := sb2
  simp only at hm hv hf ht hb
  by_cases hc : juceGet false s1.startingRunningMean chan = true
  · have hc2 : juceGet false s2.startingRunningMean chan = true := by rw [← hf]; exact hc
    rw [processChannel_cold_state N n spm s1 b1 chan hc,
      processChannel_cold_state N n spm s2 b2 chan hc2]
    simp only [hm, hv, hf, ht, hb 0, blockFrom_congr b1 b2 chan 1 (n - 1) hb, and_self]
  · have hc1 : juceGet false s1.startingRunningMean chan = false := by simpa using hc
    have hc2 : juceGet false s2.startingRunningMean chan = false := by rw [← hf]; exact hc1
    rw [processChannel_warm_state N n spm s1 b1 chan hc1,
      processChannel_warm_state N n spm s2 b2 chan hc2]
    simp only [hm, hv, hf, ht, block_congr b1 b2 chan n hb, and_self]

/-- Two runs that agree on the arrays, the time constant and the samples of the channels still
to be visited keep agreeing on the arrays and the time constant, when no channel is visited
twice. -/
theorem channels_fold_congr (N : MathOps F) (n : Nat) (spm : F) :
    ∀ (chans later : List Nat) (sb1 sb2 : ContinuousStats F × AudioBuffer F),
      (chans ++ later).Nodup →
      sb1.1.currMean = sb2.1.currMean → sb1.1.currVar = sb2.1.currVar →
      sb1.1.startingRunningMean = sb2.1.startingRunningMean →
      sb1.1.timeConstMs = sb2.1.timeConstMs →
      (∀ c ∈ chans ++ later, ∀ i, sb1.2 c i = sb2.2 c i) →
      (chans.foldl (processChannel N n spm) sb1).1.currMean =
        (chans.foldl (processChannel N n spm) sb2).1.currMean ∧
      (chans.foldl (processChannel N n spm) sb1).1.currVar =
        (chans.foldl (processChannel N n spm) sb2).1.currVar ∧
      (chans.foldl (processChannel N n spm) sb1).1.startingRunningMean =
        (chans.foldl (processChannel N n spm) sb2).1.startingRunningMean ∧
      (chans.foldl (processChannel N n spm) sb1).1.timeConstMs =
        (chans.foldl (processChannel N n spm) sb2).1.timeConstMs ∧
      (∀ c ∈ later, ∀ i, (chans.foldl (processChannel N n spm) sb1).2 c i =
        (chans.foldl (processChannel N n spm) sb2).2 c i) := by
  intro chans
  induction chans with
  | nil =>
    intro later sb1 sb2 _ hm hv hf ht hb
    exact ⟨hm, hv, hf, ht, fun c hc i => hb c (by simpa using hc) i⟩
  | cons chan chans ih =>
    intro later sb1 sb2 hnd hm hv hf ht hb
    rw [List.cons_append, List.nodup_cons] at hnd
    have hstep := processChannel_state_congr N n spm sb1 sb2 chan hm hv hf ht
      (hb chan (List.mem_cons_self _ _))
    simp only [List.foldl_cons]
    refine ih later _ _ hnd.2 hstep.1 hstep.2.1 hstep.2.2.1 hstep.2.2.2 ?_
    intro c hc i
    have hne : c ≠ chan := fun h => hnd.1 (h ▸ hc)
    rw [processChannel_buf_frame N n spm sb1 chan c i (Or.inl hne),
      processChannel_buf_frame N n spm sb2 chan c i (Or.inl hne)]
    exact hb c (List.mem_cons_of_mem _ hc) i

theorem streams_fold_congr (N : MathOps F) :
    ∀ (streams : List (DataStream F)) (sb1 sb2 : ContinuousStats F × AudioBuffer F),
      (selectedChannels streams).Nodup →
      sb1.1.currMean = sb2.1.currMean → sb1.1.currVar = sb2.1.currVar →
      sb1.1.startingRunningMean = sb2.1.startingRunningMean →
      sb1.1.timeConstMs = sb2.1.timeConstMs →
      (∀ c ∈ selectedChannels streams, ∀ i, sb1.2 c i = sb2.2 c i) →
      (streams.foldl (processStream N) sb1).1.currMean =
        (streams.foldl (processStream N) sb2).1.currMean ∧
      (streams.foldl (processStream N) sb1).1.currVar =
        (streams.foldl (processStream N) sb2).1.currVar ∧
      (streams.foldl (processStream N) sb1).1.startingRunningMean =
        (streams.foldl (processStream N) sb2).1.startingRunningMean ∧
      (streams.foldl (processStream N) sb1).1.timeConstMs =
        (streams.foldl (processStream N) sb2).1.timeConstMs := by
  intro streams
  induction streams with
  | nil => intro sb1 sb2 _ hm hv hf ht _; exact ⟨hm, hv, hf, ht⟩
  | cons st rest ih =>
    intro sb1 sb2 hnd hm hv hf ht hb
    simp only [List.foldl_cons]
    by_cases he : st.enable_stream = true
    · simp only [selectedChannels, he, if_true] at hnd hb
      have h := channels_fold_congr N st.nSamples (st.sampleRate / 1000) st.Channels
        (selectedChannels rest) sb1 sb2 hnd hm hv hf ht hb
      have e : ∀ sb, processStream N sb st =
          st.Channels.foldl (processChannel N st.nSamples (st.sampleRate / 1000)) sb := by
        intro sb; simp [processStream, he]
      rw [e sb1, e sb2]
      exact ih _ _ (List.Nodup.of_append_right hnd) h.1 h.2.1 h.2.2.1 h.2.2.2.1 h.2.2.2.2
    · have he' : st.enable_stream = false := by simpa using he
      simp only [selectedChannels, he', Bool.false_eq_true, if_false, List.nil_append] at hnd hb
      have e : ∀ sb, processStream N sb st = sb := by
        intro sb; simp [processStream, he']
      rw [e sb1, e sb2]
      exact ih _ _ hnd hm hv hf ht hb

end ContinuousStats

namespace ContinuousStats

/-- C11, as stated, fails on the code.  Channel 0 is cold and selected in two enabled streams,
the block is `[4]`, time constant 1000 ms at 1000 Hz.  The first visit writes `4` under MEAN and
`sqrt 0 = 0` under STDDEV; the second visit reads that sample back, so the stored mean is `4`
under MEAN and `4 * exp (-1 / 1000)` under STDDEV: the running state depends on the
statistic. -/
theorem statistic_changes_state_when_selected_twice :
    (process ⟨fun t => Real.exp t - 1, Real.sqrt, id⟩
        ⟨Statistic.MEAN, 1000, [0], [0], [true]⟩
        [⟨true, 1, 1000, [0]⟩, ⟨true, 1, 1000, [0]⟩] (fun _ _ => 4)).1.currMean ≠
    (process ⟨fun t => Real.exp t - 1, Real.sqrt, id⟩
        ⟨Statistic.STDDEV, 1000, [0], [0], [true]⟩
        [⟨true, 1, 1000, [0]⟩, ⟨true, 1, 1000, [0]⟩] (fun _ _ => 4)).1.currMean := by
  simp [process, processStream, processChannel, juceGet, juceSet, sampleLoop, alphaOf,
    statValue, AudioBuffer.setSample]
  have h : Real.exp (-1 / 1000) < 1 := Real.exp_lt_one_iff.mpr (by norm_num)
  intro h0
  linarith

end ContinuousStats

namespace ContinuousStats

theorem mem_selectedChannels {F : Type} (c : Nat) :
    ∀ streams : List (DataStream F), c ∈ selectedChannels streams ↔
      ∃ st ∈ streams, st.enable_stream = true ∧ c ∈ st.Channels := by
  intro streams
  induction streams with
  | nil => simp [selectedChannels]
  | cons st rest ih =>
    simp only [selectedChannels, List.mem_append, ih, List.mem_cons, exists_eq_or_imp]
    by_cases he : st.enable_stream = true
    · simp [he]
    · have he' : st.enable_stream = false := by simpa using he
      simp [he']

/-- The samples of a channel that is not visited are not written. -/
theorem process_buf_unselected {F : Type} [Field F] (N : MathOps F) (s : ContinuousStats F)
    (streams : List (DataStream F)) (buf : AudioBuffer F) (c : Nat)
    (hc : c ∉ selectedChannels streams) (i : Nat) :
    (process N s streams buf).2 c i = buf c i := by
  have hc' : ∀ st ∈ streams, st.enable_stream = true → c ∉ st.Channels := by
    intro st hst he hmem
    exact hc ((mem_selectedChannels c streams).mpr ⟨st, hst, he, hmem⟩)
  have h := foldl_keeps
    (fun sb' : ContinuousStats F × AudioBuffer F => (∀ i, sb'.2 c i = buf c i) ∧
      (∀ v, s.currMean[c]? = some v → sb'.1.currMean[c]? = some v) ∧
      (∀ v, s.currVar[c]? = some v → sb'.1.currVar[c]? = some v) ∧
      (∀ b, s.startingRunningMean[c]? = some b → sb'.1.startingRunningMean[c]? = some b))
    (fun st : DataStream F => st.enable_stream = true → c ∉ st.Channels)
    (processStream N)
    (fun sb' st hst hP => processStream_frame N s buf c sb' st hst hP)
    streams (s, buf) hc' ⟨fun _ => rfl, fun _ h => h, fun _ h => h, fun _ h => h⟩
  exact h.1 i

/-- C11 (amended).  When no channel index is selected more than once across the enabled
streams, a `process` call made with statistic MEAN and the same call made with statistic STDDEV
leave the same running state: the same means, variances and cold-start flags (and the same time
constant), for every state, stream list, buffer and numeric primitives.  The two buffers can
differ only in samples of selected channels. -/
theorem statistic_does_not_influence_state {F : Type} [Field F] (N : MathOps F)
    (s : ContinuousStats F) (streams : List (DataStream F)) (buf : AudioBuffer F)
    (hnd : (selectedChannels streams).Nodup) :
    (process N { s with currStat := Statistic.MEAN } streams buf).1.currMean =
      (process N { s with currStat := Statistic.STDDEV } streams buf).1.currMean ∧
    (process N { s with currStat := Statistic.MEAN } streams buf).1.currVar =
      (process N { s with currStat := Statistic.STDDEV } streams buf).1.currVar ∧
    (process N { s with currStat := Statistic.MEAN } streams buf).1.startingRunningMean =
      (process N { s with currStat := Statistic.STDDEV } streams buf).1.startingRunningMean ∧
    (process N { s with currStat := Statistic.MEAN } streams buf).1.timeConstMs =
      (process N { s with currStat := Statistic.STDDEV } streams buf).1.timeConstMs ∧
    (∀ c, c ∉ selectedChannels streams → ∀ i,
      (process N { s with currStat := Statistic.MEAN } streams buf).2 c i =
        (process N { s with currStat := Statistic.STDDEV } streams buf).2 c i) := by
  have h := streams_fold_congr N streams ({ s with currStat := Statistic.MEAN }, buf)
    ({ s with currStat := Statistic.STDDEV }, buf) hnd rfl rfl rfl rfl (fun _ _ _ => rfl)
  refine ⟨h.1, h.2.1, h.2.2.1, h.2.2.2, fun c hc i => ?_⟩
  rw [process_buf_unselected N _ streams buf c hc i, process_buf_unselected N _ streams buf c hc i]

/-- Witness for C11 (amended) over the rationals: channels 0 and 1 selected once each in two
enabled streams. -/
theorem statistic_does_not_influence_state_witness :
    (process (⟨fun _ => -1 / 2, fun _ => 0, id⟩ : MathOps ℚ)
        { (⟨Statistic.MEAN, 1000, [1, 2], [3, 4], [false, true]⟩ : ContinuousStats ℚ) with
          currStat := Statistic.MEAN }
        [⟨true, 2, 1000, [0]⟩, ⟨true, 1, 500, [1]⟩] (fun _ _ => 7)).1.currMean =
      (process (⟨fun _ => -1 / 2, fun _ => 0, id⟩ : MathOps ℚ)
        { (⟨Statistic.MEAN, 1000, [1, 2], [3, 4], [false, true]⟩ : ContinuousStats ℚ) with
          currStat := Statistic.STDDEV }
        [⟨true, 2, 1000, [0]⟩, ⟨true, 1, 500, [1]⟩] (fun _ _ => 7)).1.currMean :=
  (statistic_does_not_influence_state (⟨fun _ => -1 / 2, fun _ => 0, id⟩ : MathOps ℚ)
    ⟨Statistic.MEAN, 1000, [1, 2], [3, 4], [false, true]⟩
    [⟨true, 2, 1000, [0]⟩, ⟨true, 1, 500, [1]⟩] (fun _ _ => 7) (by decide)).1

end ContinuousStats

/-! ## Constant input -/

namespace ContinuousStats

theorem specStep_same {F : Type} [Field F] (alpha c v : F) :
    specStep alpha (c, v) c = (c, (1 - alpha) * v) := by
  simp [specStep]

theorem specFold_const_cold {F : Type} [Field F] (alpha c : F) (xs : List F)
    (h : ∀ x ∈ xs, x = c) : specFold alpha (c, 0) xs = (c, 0) := by
  induction xs with
  | nil => rfl
  | cons x xs ih =>
    have hx : x = c := h x (List.mem_cons_self _ _)
    have e : specFold alpha (c, 0) (x :: xs) = specFold alpha (specStep alpha (c, 0) x) xs := rfl
    rw [e, hx, specStep_same, mul_zero]
    exact ih (fun y hy => h y (List.mem_cons_of_mem _ hy))

theorem blockFrom_const {F : Type} (buf : AudioBuffer F) (chan start k n : Nat) (c : F)
    (hc : ∀ i, i < n → buf chan i = c) (hk : start + k ≤ n) :
    ∀ x ∈ blockFrom buf chan start k, x = c := by
  intro x hx
  simp only [blockFrom, List.mem_map, List.mem_range'_1] at hx
  obtain ⟨i, hi, rfl⟩ := hx
  exact hc i (by omega)

/-- C12. Constant input from a cold start is reproduced exactly, whatever the decay coefficient
(any `expm1`; over the reals, no rounding on write-back): a cold channel fed `n ≥ 1` samples all
equal to `c` writes `c` at every offset under MEAN and `0` under STDDEV, and ends with stored
mean `c`, variance `0` and a cleared flag. -/
theorem constant_input_from_cold (expm1 : ℝ → ℝ) (s : ContinuousStats ℝ) (buf : AudioBuffer ℝ)
    (chan n : Nat) (sampleRate c : ℝ)
    (hm : chan < s.currMean.length) (hv : chan < s.currVar.length)
    (hf : juceGet false s.startingRunningMean chan = true) (hn : 0 < n)
    (hc : ∀ i, i < n → buf chan i = c) :
    (∀ i, i < n →
      (processChannel ⟨expm1, Real.sqrt, id⟩ n (sampleRate / 1000) (s, buf) chan).2 chan i =
        (match s.currStat with
          | Statistic.MEAN => c
          | Statistic.STDDEV => 0)) ∧
    (processChannel ⟨expm1, Real.sqrt, id⟩ n (sampleRate / 1000) (s, buf) chan).1.currMean =
      s.currMean.set chan c ∧
    (processChannel ⟨expm1, Real.sqrt, id⟩ n (sampleRate / 1000) (s, buf) chan).1.currVar =
      s.currVar.set chan 0 ∧
    juceGet false
      (processChannel ⟨expm1, Real.sqrt, id⟩ n (sampleRate / 1000)
        (s, buf) chan).1.startingRunningMean chan = false := by
  have hfl := juceGet_true_lt _ _ hf
  have h0 : buf chan 0 = c := hc 0 hn
  refine ⟨fun i hi => ?_, ?_, ?_, ?_⟩
  · rw [processChannel_cold_out _ n _ s buf chan hf i (Or.inl hi), h0,
      specFold_const_cold _ c _ (blockFrom_const buf chan 1 i n c hc (by omega))]
    cases hs : s.currStat <;> simp [statValue]
  · rw [processChannel_cold_state _ n _ s buf chan hf, h0,
      specFold_const_cold _ c _ (blockFrom_const buf chan 1 (n - 1) n c hc (by omega))]
    exact juceSet_of_lt _ chan _ hm
  · rw [processChannel_cold_state _ n _ s buf chan hf, h0,
      specFold_const_cold _ c _ (blockFrom_const buf chan 1 (n - 1) n c hc (by omega))]
    exact juceSet_of_lt _ chan _ hv
  · rw [processChannel_cold_state _ n _ s buf chan hf]
    exact juceGet_juceSet_same false _ chan false hfl

/-- Witness for C12: the specification's scenario, MEAN, 1000 ms at 1000 Hz, a cold channel and
the block `[10, 10, 10]`: the output is `[10, 10, 10]`, the stored mean 10 and the variance 0. -/
theorem constant_input_from_cold_witness :
    (processChannel ⟨fun t => Real.exp t - 1, Real.sqrt, id⟩ 3 (1000 / 1000)
        (⟨Statistic.MEAN, 1000, [0], [0], [true]⟩, fun _ _ => 10) 0).2 0 0 = 10 ∧
    (processChannel ⟨fun t => Real.exp t - 1, Real.sqrt, id⟩ 3 (1000 / 1000)
        (⟨Statistic.MEAN, 1000, [0], [0], [true]⟩, fun _ _ => 10) 0).2 0 1 = 10 ∧
    (processChannel ⟨fun t => Real.exp t - 1, Real.sqrt, id⟩ 3 (1000 / 1000)
        (⟨Statistic.MEAN, 1000, [0], [0], [true]⟩, fun _ _ => 10) 0).2 0 2 = 10 ∧
    (processChannel ⟨fun t => Real.exp t - 1, Real.sqrt, id⟩ 3 (1000 / 1000)
        (⟨Statistic.MEAN, 1000, [0], [0], [true]⟩, fun _ _ => 10) 0).1.currMean = [10] ∧
    (processChannel ⟨fun t => Real.exp t - 1, Real.sqrt, id⟩ 3 (1000 / 1000)
        (⟨Statistic.MEAN, 1000, [0], [0], [true]⟩, fun _ _ => 10) 0).1.currVar = [0] := by
  have h := constant_input_from_cold (fun t => Real.exp t - 1)
    ⟨Statistic.MEAN, 1000, [0], [0], [true]⟩ (fun _ _ => 10) 0 3 1000 10
    (by simp) (by simp) (by simp [juceGet]) (by norm_num) (fun _ _ => rfl)
  refine ⟨h.1 0 (by norm_num), h.1 1 (by norm_num), h.1 2 (by norm_num), ?_, ?_⟩
  · rw [h.2.1]; simp
  · rw [h.2.2.1]; simp

end ContinuousStats

/-! ## A sample equal to the mean -/

namespace ContinuousStats

theorem set_get_self {α : Type} (xs : List α) (i : Nat) (h : i < xs.length) :
    xs.set i (xs.get ⟨i, h⟩) = xs := by
  apply List.ext_getElem
  · simp
  · intro j h1 h2
    by_cases hj : i = j
    · subst hj; simp
    · simp [List.getElem_set_ne hj]

/-- C13. A sample equal to the current mean only decays the variance (over the reals, no
rounding on write-back).  For a warm channel with stored mean `m` and variance `v`, the
one-sample block `[m]` leaves the means and the flags as they are, stores the variance
`(1 - alpha) * v` with `alpha = 1 - exp (-1 / (timeConstMs * (sampleRate / 1000)))`, and writes
`sqrt ((1 - alpha) * v)` under STDDEV (and `m` under MEAN). -/
theorem sample_equal_to_mean_decays_variance (s : ContinuousStats ℝ) (buf : AudioBuffer ℝ)
    (chan : Nat) (sampleRate : ℝ)
    (hm : chan < s.currMean.length) (hv : chan < s.currVar.length)
    (hf : juceGet false s.startingRunningMean chan = false)
    (hx : buf chan 0 = s.currMean.get ⟨chan, hm⟩) :
    (processChannel ⟨fun t => Real.exp t - 1, Real.sqrt, id⟩ 1 (sampleRate / 1000)
        (s, buf) chan).1.currMean = s.currMean ∧
    (processChannel ⟨fun t => Real.exp t - 1, Real.sqrt, id⟩ 1 (sampleRate / 1000)
        (s, buf) chan).1.currVar =
      s.currVar.set chan
        ((1 - (1 - Real.exp (-1 / (s.timeConstMs * (sampleRate / 1000))))) *
          s.currVar.get ⟨chan, hv⟩) ∧
    (processChannel ⟨fun t => Real.exp t - 1, Real.sqrt, id⟩ 1 (sampleRate / 1000)
        (s, buf) chan).1.startingRunningMean = s.startingRunningMean ∧
    (s.currStat = Statistic.STDDEV →
      (processChannel ⟨fun t => Real.exp t - 1, Real.sqrt, id⟩ 1 (sampleRate / 1000)
          (s, buf) chan).2 chan 0 =
        Real.sqrt ((1 - (1 - Real.exp (-1 / (s.timeConstMs * (sampleRate / 1000))))) *
          s.currVar.get ⟨chan, hv⟩)) ∧
    (s.currStat = Statistic.MEAN →
      (processChannel ⟨fun t => Real.exp t - 1, Real.sqrt, id⟩ 1 (sampleRate / 1000)
          (s, buf) chan).2 chan 0 = s.currMean.get ⟨chan, hm⟩) := by
  have hb : block buf chan 1 = [s.currMean.get ⟨chan, hm⟩] := by
    simp [block, List.range_succ, hx]
  have hfold : specFold (1 - Real.exp (-1 / (s.timeConstMs * (sampleRate / 1000))))
      (s.currMean.get ⟨chan, hm⟩, s.currVar.get ⟨chan, hv⟩) [s.currMean.get ⟨chan, hm⟩] =
      (s.currMean.get ⟨chan, hm⟩,
        (1 - (1 - Real.exp (-1 / (s.timeConstMs * (sampleRate / 1000))))) *
          s.currVar.get ⟨chan, hv⟩) := by
    show specStep _ _ _ = _
    rw [specStep_same]
  have hst := processChannel_warm_state ⟨fun t => Real.exp t - 1, Real.sqrt, id⟩ 1
    (sampleRate / 1000) s buf chan hf
  have hout := processChannel_warm_out ⟨fun t => Real.exp t - 1, Real.sqrt, id⟩ 1
    (sampleRate / 1000) s buf chan hf 0 Nat.zero_lt_one
  rw [alphaOf_real, juceGet_of_lt 0 _ chan hm, juceGet_of_lt 0 _ chan hv, hb, hfold,
    juceSet_of_lt _ chan _ hm, juceSet_of_lt _ chan _ hv, set_get_self] at hst
  rw [alphaOf_real, juceGet_of_lt 0 _ chan hm, juceGet_of_lt 0 _ chan hv, hb, hfold] at hout
  refine ⟨?_, ?_, ?_, fun hs => ?_, fun hs => ?_⟩
  · rw [hst]
  · rw [hst]
  · rw [hst]
  · rw [hout]; simp [statValue, hs]
  · rw [hout]; simp [statValue, hs]

end ContinuousStats

namespace ContinuousStats

/-- The state after the cold MEAN block `[0, 10]` with a time constant of one sample (10 ms at
100 Hz, `alpha = 1 - exp (-1)`), once the statistic is switched to STDDEV. -/
theorem state_after_cold_block_and_switch :
    parameterValueChanged
      (processChannel ⟨fun t => Real.exp t - 1, Real.sqrt, id⟩ 2 (100 / 1000)
        (⟨Statistic.MEAN, 10, [0], [0], [true]⟩, fun _ i => if i = 0 then 0 else 10) 0).1
      ⟨"stat", 1⟩ =
    ⟨Statistic.STDDEV, 10, [10 * (1 - Real.exp (-1))],
      [(1 - (1 - Real.exp (-1))) * ((1 - Real.exp (-1)) * 100)], [false]⟩ := by
  have h1 : equalsIgnoreCase "stat" "window_ms" = false := by decide
  have h2 : equalsIgnoreCase "stat" "stat" = true := by decide
  rw [processChannel_cold_state _ _ _ _ _ 0 (by simp [juceGet])]
  simp only [parameterValueChanged, h1, h2, Bool.false_eq_true, if_false, if_true]
  norm_num [specFold, specStep, blockFrom, juceSet, alphaOf, statisticOfInt]
  ring

/-- Witness for C13, the state carried across a statistic switch: with `alpha = 1 - exp (-1)`,
after the cold MEAN block `[0, 10]` and the switch to STDDEV, the block `[10 * alpha]` keeps the
mean `10 * alpha`, stores the variance `(1 - alpha) * ((1 - alpha) * (alpha * 100))` and writes
its square root. -/
theorem sample_equal_to_mean_decays_variance_witness :
    (processChannel ⟨fun t => Real.exp t - 1, Real.sqrt, id⟩ 1 (100 / 1000)
        (parameterValueChanged
          (processChannel ⟨fun t => Real.exp t - 1, Real.sqrt, id⟩ 2 (100 / 1000)
            (⟨Statistic.MEAN, 10, [0], [0], [true]⟩, fun _ i => if i = 0 then 0 else 10) 0).1
          ⟨"stat", 1⟩,
          fun _ _ => 10 * (1 - Real.exp (-1))) 0).1.currMean = [10 * (1 - Real.exp (-1))] ∧
    (processChannel ⟨fun t => Real.exp t - 1, Real.sqrt, id⟩ 1 (100 / 1000)
        (parameterValueChanged
          (processChannel ⟨fun t => Real.exp t - 1, Real.sqrt, id⟩ 2 (100 / 1000)
            (⟨Statistic.MEAN, 10, [0], [0], [true]⟩, fun _ i => if i = 0 then 0 else 10) 0).1
          ⟨"stat", 1⟩,
          fun _ _ => 10 * (1 - Real.exp (-1))) 0).1.currVar =
      [(1 - (1 - Real.exp (-1))) * ((1 - (1 - Real.exp (-1))) * ((1 - Real.exp (-1)) * 100))] ∧
    (processChannel ⟨fun t => Real.exp t - 1, Real.sqrt, id⟩ 1 (100 / 1000)
        (parameterValueChanged
          (processChannel ⟨fun t => Real.exp t - 1, Real.sqrt, id⟩ 2 (100 / 1000)
            (⟨Statistic.MEAN, 10, [0], [0], [true]⟩, fun _ i => if i = 0 then 0 else 10) 0).1
          ⟨"stat", 1⟩,
          fun _ _ => 10 * (1 - Real.exp (-1))) 0).2 0 0 =
      Real.sqrt
        ((1 - (1 - Real.exp (-1))) * ((1 - (1 - Real.exp (-1))) * ((1 - Real.exp (-1)) * 100))) := by
  rw [state_after_cold_block_and_switch]
  have h := sample_equal_to_mean_decays_variance
    ⟨Statistic.STDDEV, 10, [10 * (1 - Real.exp (-1))],
      [(1 - (1 - Real.exp (-1))) * ((1 - Real.exp (-1)) * 100)], [false]⟩
    (fun _ _ => 10 * (1 - Real.exp (-1))) 0 100 (by simp) (by simp) (by simp [juceGet])
    (by simp)
  have e : (-1 : ℝ) / (10 * (100 / 1000)) = -1 := by norm_num
  refine ⟨h.1, ?_, ?_⟩
  · rw [h.2.1]
    simp only [e]
    simp
  · rw [h.2.2.2.1 rfl]
    simp only [e]
    simp

end ContinuousStats

/-! ## Dispatch at an empty block -/

namespace ContinuousStats

/-- C14 (the code at an empty block).  Channel 0 is cold, selected once in the only enabled
stream, its index is below the tracked count, the statistic is STDDEV and the block has no
samples; the buffer holds 7 at offset 0.  Lines 67-74 write `sqrt 0 = 0` at offset 0, an offset
that is not below `nSamples`, so a sample outside the block is changed. -/
theorem empty_block_overwrites_sample :
    selectedChannels ([⟨true, 0, 1000, [0]⟩] : List (DataStream ℝ)) = [0] ∧
    (fun (_ _ : Nat) => (7 : ℝ)) 0 0 = 7 ∧
    (process ⟨fun t => Real.exp t - 1, Real.sqrt, id⟩
        ⟨Statistic.STDDEV, 1000, [0], [0], [true]⟩ [⟨true, 0, 1000, [0]⟩]
        (fun _ _ => 7)).2 0 0 = 0 := by
  refine ⟨by simp [selectedChannels], rfl, ?_⟩
  simp [process, processStream, processChannel, juceGet, sampleLoop, statValue,
    AudioBuffer.setSample]

end ContinuousStats

/-! ## Approach to a constant input -/

namespace ContinuousStats

theorem block_const {F : Type} (buf : AudioBuffer F) (chan k : Nat) (c : F)
    (hc : ∀ i, buf chan i = c) : ∀ x ∈ block buf chan k, x = c := by
  intro x hx
  simp only [block, List.mem_map] at hx
  obtain ⟨i, _, rfl⟩ := hx
  exact hc i

/-- On samples all equal to `c` the distance of the mean to `c` is multiplied by `1 - alpha`
at every sample. -/
theorem specFold_const_mean {F : Type} [Field F] (alpha c : F) :
    ∀ (xs : List F) (mv : F × F), (∀ x ∈ xs, x = c) →
      (specFold alpha mv xs).1 - c = (1 - alpha) ^ xs.length * (mv.1 - c) := by
  intro xs
  induction xs with
  | nil => intro mv _; simp [specFold]
  | cons x xs ih =>
    intro mv h
    have hx : x = c := h x (List.mem_cons_self _ _)
    have e : specFold alpha mv (x :: xs) = specFold alpha (specStep alpha mv x) xs := rfl
    rw [e, ih _ (fun y hy => h y (List.mem_cons_of_mem _ hy)), hx]
    simp only [specStep, List.length_cons, pow_succ]
    ring

/-- The mean a warm channel stores after a block, read back. -/
theorem warm_mean_after_block {F : Type} [Field F] (N : MathOps F) (n : Nat) (spm : F)
    (s : ContinuousStats F) (buf : AudioBuffer F) (chan : Nat)
    (hm : chan < s.currMean.length)
    (hf : juceGet false s.startingRunningMean chan = false) :
    juceGet 0 (processChannel N n spm (s, buf) chan).1.currMean chan =
      (specFold (alphaOf N s.timeConstMs spm)
        (juceGet 0 s.currMean chan, juceGet 0 s.currVar chan) (block buf chan n)).1 := by
  rw [processChannel_warm_state N n spm s buf chan hf]
  exact juceGet_juceSet_same 0 s.currMean chan _ hm

/-- C15 (amended). Geometric approach to a constant input, in exact arithmetic over the reals
(for any numeric primitives whose decay coefficient `alpha` lies strictly between 0 and 1).  For a warm channel with stored
mean `m0` fed samples all equal to `c`, the mean stored after `k` samples satisfies
`mean - c = (1 - alpha)^k * (m0 - c)`; the distance `|mean - c|` does not increase from sample
`k` to sample `k + 1`, and strictly decreases when `m0 ≠ c`. -/
theorem geometric_approach_to_constant (N : MathOps ℝ) (s : ContinuousStats ℝ)
    (buf : AudioBuffer ℝ) (chan : Nat) (sampleRate c : ℝ)
    (hm : chan < s.currMean.length)
    (hf : juceGet false s.startingRunningMean chan = false)
    (hc : ∀ i, buf chan i = c)
    (h0 : 0 < alphaOf N s.timeConstMs (sampleRate / 1000))
    (h1 : alphaOf N s.timeConstMs (sampleRate / 1000) < 1) :
    ∀ k : Nat,
      juceGet 0 (processChannel N k (sampleRate / 1000) (s, buf) chan).1.currMean chan - c =
        (1 - alphaOf N s.timeConstMs (sampleRate / 1000)) ^ k * (s.currMean.get ⟨chan, hm⟩ - c) ∧
      |juceGet 0 (processChannel N (k + 1) (sampleRate / 1000) (s, buf) chan).1.currMean chan - c|
        ≤ |juceGet 0 (processChannel N k (sampleRate / 1000) (s, buf) chan).1.currMean chan - c| ∧
      (s.currMean.get ⟨chan, hm⟩ ≠ c →
        |juceGet 0 (processChannel N (k + 1) (sampleRate / 1000) (s, buf) chan).1.currMean chan
            - c|
          < |juceGet 0 (processChannel N k (sampleRate / 1000) (s, buf) chan).1.currMean chan
            - c|) := by
  have key : ∀ k : Nat,
      juceGet 0 (processChannel N k (sampleRate / 1000) (s, buf) chan).1.currMean chan - c =
        (1 - alphaOf N s.timeConstMs (sampleRate / 1000)) ^ k *
          (s.currMean.get ⟨chan, hm⟩ - c) := by
    intro k
    rw [warm_mean_after_block N k _ s buf chan hm hf,
      specFold_const_mean _ c _ _ (block_const buf chan k c hc), block_length,
      juceGet_of_lt 0 _ chan hm]
  intro k
  have hq0 : 0 < 1 - alphaOf N s.timeConstMs (sampleRate / 1000) := by linarith
  have hq1 : 1 - alphaOf N s.timeConstMs (sampleRate / 1000) < 1 := by linarith
  have habs : |(1 - alphaOf N s.timeConstMs (sampleRate / 1000)) ^ (k + 1) *
      (s.currMean.get ⟨chan, hm⟩ - c)| =
      (1 - alphaOf N s.timeConstMs (sampleRate / 1000)) *
        |(1 - alphaOf N s.timeConstMs (sampleRate / 1000)) ^ k *
          (s.currMean.get ⟨chan, hm⟩ - c)| := by
    rw [pow_succ, mul_comm ((1 - alphaOf N s.timeConstMs (sampleRate / 1000)) ^ k), mul_assoc,
      abs_mul, abs_of_pos hq0]
  refine ⟨key k, ?_, fun hne => ?_⟩
  · rw [key (k + 1), key k, habs]
    have hnn := abs_nonneg ((1 - alphaOf N s.timeConstMs (sampleRate / 1000)) ^ k *
      (s.currMean.get ⟨chan, hm⟩ - c))
    nlinarith
  · rw [key (k + 1), key k, habs]
    have hpos : 0 < |(1 - alphaOf N s.timeConstMs (sampleRate / 1000)) ^ k *
        (s.currMean.get ⟨chan, hm⟩ - c)| := by
      apply abs_pos.mpr
      exact mul_ne_zero (pow_ne_zero k (ne_of_gt hq0)) (sub_ne_zero.mpr hne)
    nlinarith

end ContinuousStats

namespace ContinuousStats

/-- Witness for C15: a warm channel at mean 4 fed the constant 1 with a time constant of one
sample (10 ms at 100 Hz): after two samples the distance to 1 is `(1 - alpha)^2 * 3`, and the
second sample brings the mean strictly closer to 1 than the first. -/
theorem geometric_approach_to_constant_witness :
    juceGet 0 (processChannel ⟨fun t => Real.exp t - 1, Real.sqrt, id⟩ 2 (100 / 1000)
        (⟨Statistic.MEAN, 10, [4], [0], [false]⟩, fun _ _ => 1) 0).1.currMean 0 - 1 =
      (1 - alphaOf ⟨fun t => Real.exp t - 1, Real.sqrt, id⟩ (10 : ℝ) (100 / 1000)) ^ 2 * (4 - 1) ∧
    |juceGet 0 (processChannel ⟨fun t => Real.exp t - 1, Real.sqrt, id⟩ (1 + 1) (100 / 1000)
        (⟨Statistic.MEAN, 10, [4], [0], [false]⟩, fun _ _ => 1) 0).1.currMean 0 - 1| <
      |juceGet 0 (processChannel ⟨fun t => Real.exp t - 1, Real.sqrt, id⟩ 1 (100 / 1000)
        (⟨Statistic.MEAN, 10, [4], [0], [false]⟩, fun _ _ => 1) 0).1.currMean 0 - 1| :=
  ⟨(geometric_approach_to_constant ⟨fun t => Real.exp t - 1, Real.sqrt, id⟩
      ⟨Statistic.MEAN, 10, [4], [0], [false]⟩ (fun _ _ => 1) 0 100 1 (by simp)
      (by simp [juceGet]) (fun _ => rfl)
      (alphaOf_real_bounds Real.sqrt id 10 (100 / 1000) (by norm_num)).1
      (alphaOf_real_bounds Real.sqrt id 10 (100 / 1000) (by norm_num)).2 2).1,
    (geometric_approach_to_constant ⟨fun t => Real.exp t - 1, Real.sqrt, id⟩
      ⟨Statistic.MEAN, 10, [4], [0], [false]⟩ (fun _ _ => 1) 0 100 1 (by simp)
      (by simp [juceGet]) (fun _ => rfl)
      (alphaOf_real_bounds Real.sqrt id 10 (100 / 1000) (by norm_num)).1
      (alphaOf_real_bounds Real.sqrt id 10 (100 / 1000) (by norm_num)).2 1).2.2
      (by norm_num)⟩

end ContinuousStats

/-! ## The closed form of the running mean -/

namespace ContinuousStats

variable {F : Type} [Field F]

end ContinuousStats

/-! ## The time constant as the 1/e decay time -/

namespace ContinuousStats

/-- With a time constant of `n > 0` samples, `(1 - alpha)^n = exp (-1)`. -/
theorem one_minus_alpha_pow (sqrt toFloat : ℝ → ℝ) (timeConstMs samplesPerMs : ℝ) (n : Nat)
    (hn : 0 < n) (hN : timeConstMs * samplesPerMs = (n : ℝ)) :
    (1 - alphaOf ⟨fun t => Real.exp t - 1, sqrt, toFloat⟩ timeConstMs samplesPerMs) ^ n =
      Real.exp (-1) := by
  have hne : (n : ℝ) ≠ 0 := by exact_mod_cast (Nat.pos_iff_ne_zero.mp hn)
  rw [alphaOf_real, hN, sub_sub_cancel, ← Real.exp_nat_mul]
  congr 1
  field_simp

/-- C17. The time constant is the 1/e decay time (over the reals).  When
`timeConstMs * (sampleRate / 1000)` is a positive whole number `n` of samples, the decay
coefficient of `process` satisfies `(1 - alpha)^n = 1/e`, and a warm channel with stored mean
`m0` fed `n` samples of value 0 ends with the stored mean `m0 / e`. -/
theorem time_constant_is_decay_time (s : ContinuousStats ℝ) (buf : AudioBuffer ℝ)
    (chan n : Nat) (sampleRate : ℝ)
    (hn : 0 < n) (hN : s.timeConstMs * (sampleRate / 1000) = (n : ℝ))
    (hm : chan < s.currMean.length)
    (hf : juceGet false s.startingRunningMean chan = false)
    (hz : ∀ i, buf chan i = 0) :
    (1 - alphaOf ⟨fun t => Real.exp t - 1, Real.sqrt, id⟩ s.timeConstMs (sampleRate / 1000)) ^ n =
      1 / Real.exp 1 ∧
    juceGet 0 (processChannel ⟨fun t => Real.exp t - 1, Real.sqrt, id⟩ n (sampleRate / 1000)
        (s, buf) chan).1.currMean chan = s.currMean.get ⟨chan, hm⟩ / Real.exp 1 := by
  have hp := one_minus_alpha_pow Real.sqrt id s.timeConstMs (sampleRate / 1000) n hn hN
  have he : Real.exp (-1) = 1 / Real.exp 1 := by rw [Real.exp_neg, one_div]
  refine ⟨hp.trans he, ?_⟩
  have h := specFold_const_mean
    (alphaOf ⟨fun t => Real.exp t - 1, Real.sqrt, id⟩ s.timeConstMs (sampleRate / 1000)) 0
    (block buf chan n) (juceGet 0 s.currMean chan, juceGet 0 s.currVar chan)
    (block_const buf chan n 0 hz)
  rw [block_length, hp, sub_zero, sub_zero] at h
  rw [warm_mean_after_block _ n _ s buf chan hm hf, h, he, juceGet_of_lt 0 _ chan hm]
  ring

/-- Witness for C17: 1000 ms at 1000 Hz is a time constant of 1000 samples; a warm channel at
mean 5 fed 1000 zeros ends at `5 / e`. -/
theorem time_constant_is_decay_time_witness :
    (1 - alphaOf ⟨fun t => Real.exp t - 1, Real.sqrt, id⟩ (1000 : ℝ) (1000 / 1000)) ^ 1000 =
      1 / Real.exp 1 ∧
    juceGet 0 (processChannel ⟨fun t => Real.exp t - 1, Real.sqrt, id⟩ 1000 (1000 / 1000)
        (⟨Statistic.MEAN, 1000, [5], [0], [false]⟩, fun _ _ => 0) 0).1.currMean 0 =
      5 / Real.exp 1 :=
  time_constant_is_decay_time ⟨Statistic.MEAN, 1000, [5], [0], [false]⟩ (fun _ _ => 0) 0 1000
    1000 (by norm_num) (by norm_num) (by simp) (by simp [juceGet]) (fun _ => rfl)

end ContinuousStats

/-! ## Parameter notifications -/

namespace ContinuousStats

variable {F : Type} [Field F]

/-- C18. Parameter changes never touch the running state.  For every state and every
notification, `parameterValueChanged` leaves the three arrays (every mean, variance and flag,
and their number) unchanged.  A "window_ms" notification changes the time constant only, which
is the value the next `process` call reads to compute alpha; a "stat" notification changes the
active statistic only; a notification whose name is neither of the two (names are compared
ignoring case) changes nothing. -/
theorem parameter_changes_keep_running_state (s : ContinuousStats F) (p : Parameter) :
    ((parameterValueChanged s p).currMean = s.currMean ∧
      (parameterValueChanged s p).currVar = s.currVar ∧
      (parameterValueChanged s p).startingRunningMean = s.startingRunningMean) ∧
    (p.name = "window_ms" →
      parameterValueChanged s p = { s with timeConstMs := (p.value : F) }) ∧
    (p.name = "stat" →
      parameterValueChanged s p = { s with currStat := statisticOfInt p.value }) ∧
    (equalsIgnoreCase p.name "window_ms" = true →
      parameterValueChanged s p = { s with timeConstMs := (p.value : F) }) ∧
    (equalsIgnoreCase p.name "window_ms" = false → equalsIgnoreCase p.name "stat" = true →
      parameterValueChanged s p = { s with currStat := statisticOfInt p.value }) ∧
    (equalsIgnoreCase p.name "window_ms" = false → equalsIgnoreCase p.name "stat" = false →
      parameterValueChanged s p = s) := by
  have h1 : equalsIgnoreCase "window_ms" "window_ms" = true := by decide
  have h2 : equalsIgnoreCase "stat" "window_ms" = false := by decide
  have h3 : equalsIgnoreCase "stat" "stat" = true := by decide
  refine ⟨parameterValueChanged_arrays s p, ?_, ?_, ?_, ?_, ?_⟩
  · intro hn
    simp [parameterValueChanged, hn, h1]
  · intro hn
    simp [parameterValueChanged, hn, h2, h3]
  · intro hw
    simp [parameterValueChanged, hw]
  · intro hw hs
    simp [parameterValueChanged, hw, hs]
  · intro hw hs
    simp [parameterValueChanged, hw, hs]

/-- Witness for C18 over the rationals: a "window_ms", a "stat" and a "Channels" notification
on a state with two channels. -/
theorem parameter_changes_keep_running_state_witness :
    parameterValueChanged (⟨Statistic.MEAN, 1000, [1, 2], [3, 4], [false, true]⟩ :
        ContinuousStats ℚ) ⟨"window_ms", 250⟩ =
      ⟨Statistic.MEAN, 250, [1, 2], [3, 4], [false, true]⟩ ∧
    parameterValueChanged (⟨Statistic.MEAN, 1000, [1, 2], [3, 4], [false, true]⟩ :
        ContinuousStats ℚ) ⟨"stat", 1⟩ =
      ⟨Statistic.STDDEV, 1000, [1, 2], [3, 4], [false, true]⟩ ∧
    parameterValueChanged (⟨Statistic.MEAN, 1000, [1, 2], [3, 4], [false, true]⟩ :
        ContinuousStats ℚ) ⟨"Channels", 1⟩ =
      ⟨Statistic.MEAN, 1000, [1, 2], [3, 4], [false, true]⟩ :=
  ⟨((parameter_changes_keep_running_state
      (⟨Statistic.MEAN, 1000, [1, 2], [3, 4], [false, true]⟩ : ContinuousStats ℚ)
      ⟨"window_ms", 250⟩).2.1 rfl).trans (by simp),
    ((parameter_changes_keep_running_state
      (⟨Statistic.MEAN, 1000, [1, 2], [3, 4], [false, true]⟩ : ContinuousStats ℚ)
      ⟨"stat", 1⟩).2.2.1 rfl).trans (by simp [statisticOfInt]),
    (parameter_changes_keep_running_state
      (⟨Statistic.MEAN, 1000, [1, 2], [3, 4], [false, true]⟩ : ContinuousStats ℚ)
      ⟨"Channels", 1⟩).2.2.2.2.2 (by decide) (by decide)⟩

end ContinuousStats

/-! ## The cold-start flag over time -/

namespace ContinuousStats

variable {F : Type} [Field F]

/-- The arrays after `updateSettings`, when the three arrays have one length: extended by new
entries when the input count is not below the tracked count, cut when it is not above. -/
theorem updateSettings_arrays (s : ContinuousStats F) (n : Nat) (windowMs stat : Int)
    (hv : s.currVar.length = s.currMean.length)
    (hf : s.startingRunningMean.length = s.currMean.length) :
    (s.currMean.length ≤ n →
      (updateSettings s n windowMs stat).currMean =
        s.currMean ++ List.replicate (n - s.currMean.length) 0 ∧
      (updateSettings s n windowMs stat).currVar =
        s.currVar ++ List.replicate (n - s.currMean.length) 0 ∧
      (updateSettings s n windowMs stat).startingRunningMean =
        s.startingRunningMean ++ List.replicate (n - s.currMean.length) true) ∧
    (n ≤ s.currMean.length →
      (updateSettings s n windowMs stat).currMean = s.currMean.take n ∧
      (updateSettings s n windowMs stat).currVar = s.currVar.take n ∧
      (updateSettings s n windowMs stat).startingRunningMean = s.startingRunningMean.take n) := by
  rcases Nat.lt_trichotomy s.currMean.length n with hlt | heq | hgt
  · obtain ⟨k, hk⟩ : ∃ k, n = s.currMean.length + k := ⟨n - s.currMean.length, by omega⟩
    have hk0 : 0 < k := by omega
    have e : (n : Int) - (s.currMean.length : Int) = (k : Int) := by
      rw [hk]; push_cast; ring
    have hpos : (k : Int) > 0 := by exact_mod_cast hk0
    have ek : n - s.currMean.length = k := by omega
    refine ⟨fun _ => ?_, fun h => by omega⟩
    rw [ek]
    simp [updateSettings, e, hpos, insertMultiple_at_end _ _ k hk0]
  · have e : (n : Int) - (s.currMean.length : Int) = 0 := by rw [heq]; ring
    have h0 : n - s.currMean.length = 0 := by omega
    refine ⟨fun _ => ?_, fun _ => ?_⟩
    · rw [h0]
      simp [updateSettings, e]
    · have e1 : s.currMean.take n = s.currMean := List.take_of_length_le (by omega)
      have e2 : s.currVar.take n = s.currVar := List.take_of_length_le (by omega)
      have e3 : s.startingRunningMean.take n = s.startingRunningMean :=
        List.take_of_length_le (by omega)
      rw [e1, e2, e3]
      simp [updateSettings, e]
  · obtain ⟨k, hk⟩ : ∃ k, s.currMean.length = n + k := ⟨s.currMean.length - n, by omega⟩
    have hk0 : 0 < k := by omega
    have e : (n : Int) - (s.currMean.length : Int) = -(k : Int) := by
      rw [hk]; push_cast; ring
    have hpos : (0 : Int) < (k : Int) := by exact_mod_cast hk0
    have h1 : ¬ (-(k : Int) > 0) := by omega
    have h2 : -(k : Int) < 0 := by omega
    have em : s.currMean.length - k = n := by omega
    have ev : s.currVar.length - k = n := by omega
    have ef : s.startingRunningMean.length - k = n := by omega
    refine ⟨fun h => by omega, fun _ => ?_⟩
    simp only [updateSettings, e, h1, h2, if_true, if_false, neg_neg,
      removeLast_of_le _ k hk0 (show k ≤ s.currMean.length by omega),
      removeLast_of_le _ k hk0 (show k ≤ s.currVar.length by omega),
      removeLast_of_le _ k hk0 (show k ≤ s.startingRunningMean.length by omega), em, ev, ef]
    simp

/-- The update of one channel never sets a flag: a false flag stays false, and a flag that is
true afterwards was true before. -/
theorem processChannel_flag (N : MathOps F) (n : Nat) (spm : F)
    (sb : ContinuousStats F × AudioBuffer F) (chan c : Nat) :
    (sb.1.startingRunningMean[c]? = some false →
      (processChannel N n spm sb chan).1.startingRunningMean[c]? = some false) ∧
    ((processChannel N n spm sb chan).1.startingRunningMean[c]? = some true →
      sb.1.startingRunningMean[c]? = some true) := by
  obtain ⟨s, buf⟩ := sb
  by_cases hf : juceGet false s.startingRunningMean chan = true
  · have hfl := juceGet_true_lt _ _ hf
    rw [processChannel_cold_state N n spm s buf chan hf]
    simp only [juceSet_of_lt _ chan _ hfl]
    by_cases hc : chan = c
    · subst hc
      rw [List.getElem?_set_self hfl]
      exact ⟨fun _ => rfl, fun h => by simp at h⟩
    · rw [List.getElem?_set_ne hc]
      exact ⟨fun h => h, fun h => h⟩
  · have hf0 : juceGet false s.startingRunningMean chan = false := by simpa using hf
    rw [processChannel_warm_state N n spm s buf chan hf0]
    exact ⟨fun h => h, fun h => h⟩

/-- A `process` call never sets a flag. -/
theorem process_flag (N : MathOps F) (s : ContinuousStats F) (streams : List (DataStream F))
    (buf : AudioBuffer F) (c : Nat) :
    (s.startingRunningMean[c]? = some false →
      (process N s streams buf).1.startingRunningMean[c]? = some false) ∧
    ((process N s streams buf).1.startingRunningMean[c]? = some true →
      s.startingRunningMean[c]? = some true) := by
  refine foldl_keeps
    (fun sb : ContinuousStats F × AudioBuffer F =>
      (s.startingRunningMean[c]? = some false → sb.1.startingRunningMean[c]? = some false) ∧
      (sb.1.startingRunningMean[c]? = some true → s.startingRunningMean[c]? = some true))
    (fun _ : DataStream F => True) (processStream N) ?_ streams (s, buf) (fun _ _ => trivial)
    ⟨fun h => h, fun h => h⟩
  intro sb st _ hP
  unfold processStream
  by_cases he : st.enable_stream = true
  · simp only [he, if_true]
    refine foldl_keeps
      (fun sb : ContinuousStats F × AudioBuffer F =>
        (s.startingRunningMean[c]? = some false → sb.1.startingRunningMean[c]? = some false) ∧
        (sb.1.startingRunningMean[c]? = some true → s.startingRunningMean[c]? = some true))
      (fun _ : Nat => True) _ ?_ st.Channels sb (fun _ _ => trivial) hP
    intro sb' chan _ hP'
    have h := processChannel_flag N st.nSamples (st.sampleRate / 1000) sb' chan c
    exact ⟨fun h0 => h.1 (hP'.1 h0), fun h1 => hP'.2 (h.2 h1)⟩
  · simp only [he]
    exact hP

end ContinuousStats

namespace ContinuousStats

variable {F : Type} [Field F]

/-- With the three arrays of one length, `updateSettings` keeps the flag of every index that
stays below the input count. -/
theorem updateSettings_flag_kept (s : ContinuousStats F) (n : Nat) (windowMs stat : Int)
    (hv : s.currVar.length = s.currMean.length)
    (hf : s.startingRunningMean.length = s.currMean.length)
    (c : Nat) (b : Bool) (hc : c < n) (hb : s.startingRunningMean[c]? = some b) :
    (updateSettings s n windowMs stat).startingRunningMean[c]? = some b := by
  have ha := updateSettings_arrays s n windowMs stat hv hf
  have hcl : c < s.startingRunningMean.length := by
    by_contra hcon
    rw [List.getElem?_eq_none (Nat.le_of_not_lt hcon)] at hb
    exact Option.noConfusion hb
  rcases Nat.le_total s.currMean.length n with hle | hle
  · rw [(ha.1 hle).2.2, List.getElem?_append_left hcl]
    exact hb
  · rw [(ha.2 hle).2.2, List.getElem?_take_of_lt hc]
    exact hb

/-- A flag that is true after `updateSettings` was true before, or belongs to an entry the
call appended, whose mean and variance are 0. -/
theorem updateSettings_flag_true (s : ContinuousStats F) (n : Nat) (windowMs stat : Int)
    (hv : s.currVar.length = s.currMean.length)
    (hf : s.startingRunningMean.length = s.currMean.length)
    (c : Nat) (ht : (updateSettings s n windowMs stat).startingRunningMean[c]? = some true) :
    s.startingRunningMean[c]? = some true ∨
      (s.currMean.length ≤ c ∧ c < n ∧
        (updateSettings s n windowMs stat).currMean[c]? = some 0 ∧
        (updateSettings s n windowMs stat).currVar[c]? = some 0) := by
  have ha := updateSettings_arrays s n windowMs stat hv hf
  have hl := updateSettings_lengths s n windowMs stat hv hf
  have hcn : c < n := by
    by_contra hcon
    rw [List.getElem?_eq_none (by rw [hl.2.2]; exact Nat.le_of_not_lt hcon)] at ht
    exact Option.noConfusion ht
  rcases Nat.le_total s.currMean.length n with hle | hle
  · by_cases hcl : c < s.currMean.length
    · left
      rw [(ha.1 hle).2.2, List.getElem?_append_left (by rw [hf]; exact hcl)] at ht
      exact ht
    · right
      refine ⟨Nat.le_of_not_lt hcl, hcn, ?_, ?_⟩
      · rw [(ha.1 hle).1, List.getElem?_append_right (Nat.le_of_not_lt hcl),
          List.getElem?_replicate_of_lt (by omega)]
      · rw [(ha.1 hle).2.1, List.getElem?_append_right (by rw [hv]; exact Nat.le_of_not_lt hcl),
          List.getElem?_replicate_of_lt (by omega)]
  · left
    rw [(ha.2 hle).2.2, List.getElem?_take_of_lt hcn] at ht
    exact ht

/-- An index at or above the input count of one `updateSettings` call and below that of the
next is a new entry: cold, mean 0, variance 0. -/
theorem updateSettings_regrow (s : ContinuousStats F) (n1 n2 : Nat) (w1 st1 w2 st2 : Int)
    (hv : s.currVar.length = s.currMean.length)
    (hf : s.startingRunningMean.length = s.currMean.length)
    (c : Nat) (h1 : n1 ≤ c) (h2 : c < n2) :
    (updateSettings (updateSettings s n1 w1 st1) n2 w2 st2).startingRunningMean[c]? = some true ∧
    (updateSettings (updateSettings s n1 w1 st1) n2 w2 st2).currMean[c]? = some 0 ∧
    (updateSettings (updateSettings s n1 w1 st1) n2 w2 st2).currVar[c]? = some 0 := by
  have hl := updateSettings_lengths s n1 w1 st1 hv hf
  have ha := (updateSettings_arrays (updateSettings s n1 w1 st1) n2 w2 st2
    (hl.2.1.trans hl.1.symm) (hl.2.2.trans hl.1.symm)).1 (by rw [hl.1]; omega)
  rw [ha.1, ha.2.1, ha.2.2]
  refine ⟨?_, ?_, ?_⟩
  · rw [List.getElem?_append_right (by rw [hl.2.2]; exact h1),
      List.getElem?_replicate_of_lt (by rw [hl.2.2, hl.1]; omega)]
  · rw [List.getElem?_append_right (by rw [hl.1]; exact h1),
      List.getElem?_replicate_of_lt (by rw [hl.1]; omega)]
  · rw [List.getElem?_append_right (by rw [hl.2.1]; exact h1),
      List.getElem?_replicate_of_lt (by rw [hl.2.1, hl.1]; omega)]

/-- A run that keeps index `c` stays among the reachable states and keeps a false flag at
`c`. -/
theorem keepsChannel_inv (N : MathOps F) (c : Nat) (s t : ContinuousStats F)
    (hs : Reachable N s) (h0 : s.startingRunningMean[c]? = some false)
    (hrun : KeepsChannel N c s t) :
    Reachable N t ∧ t.startingRunningMean[c]? = some false := by
  induction hrun with
  | refl => exact ⟨hs, h0⟩
  | param t p _ ih =>
    refine ⟨Reachable.param t p ih.1, ?_⟩
    rw [(parameterValueChanged_arrays t p).2.2]
    exact ih.2
  | process t streams buf _ hsel ih =>
    exact ⟨Reachable.process t streams buf ih.1 hsel, (process_flag N t streams buf c).1 ih.2⟩
  | settings t n w st _ hc ih =>
    have hl := reachable_lengths N t ih.1
    exact ⟨Reachable.settings t n w st ih.1,
      updateSettings_flag_kept t n w st hl.1 hl.2 c false hc ih.2⟩

/-- C19. Once warm, always warm.  From a reachable state in which the flag of index `c` is
false, no sequence of `process` calls, parameter changes and `updateSettings` calls that keep
`c` below the input count sets it back to true.  A flag that is true after a `process` call or
a parameter change was true before; one that is true after `updateSettings` was true before or
belongs to an entry appended by that call, with mean 0 and variance 0.  An index dropped by one
`updateSettings` and recreated by the next is cold again with mean 0 and variance 0. -/
theorem once_warm_always_warm (N : MathOps F) (s : ContinuousStats F) (hs : Reachable N s)
    (c : Nat) :
    (s.startingRunningMean[c]? = some false →
      ∀ t, KeepsChannel N c s t → t.startingRunningMean[c]? = some false) ∧
    (∀ (streams : List (DataStream F)) (buf : AudioBuffer F),
      (process N s streams buf).1.startingRunningMean[c]? = some true →
        s.startingRunningMean[c]? = some true) ∧
    (∀ p : Parameter, (parameterValueChanged s p).startingRunningMean[c]? = some true →
      s.startingRunningMean[c]? = some true) ∧
    (∀ (n : Nat) (windowMs stat : Int),
      (updateSettings s n windowMs stat).startingRunningMean[c]? = some true →
        s.startingRunningMean[c]? = some true ∨
          (s.currMean.length ≤ c ∧ c < n ∧
            (updateSettings s n windowMs stat).currMean[c]? = some 0 ∧
            (updateSettings s n windowMs stat).currVar[c]? = some 0)) ∧
    (∀ (n1 n2 : Nat) (w1 st1 w2 st2 : Int), n1 ≤ c → c < n2 →
      (updateSettings (updateSettings s n1 w1 st1) n2 w2 st2).startingRunningMean[c]? =
        some true ∧
      (updateSettings (updateSettings s n1 w1 st1) n2 w2 st2).currMean[c]? = some 0 ∧
      (updateSettings (updateSettings s n1 w1 st1) n2 w2 st2).currVar[c]? = some 0) := by
  have hl := reachable_lengths N s hs
  refine ⟨fun h0 t hrun => (keepsChannel_inv N c s t hs h0 hrun).2,
    fun streams buf => (process_flag N s streams buf c).2, fun p hp => ?_,
    fun n w st => updateSettings_flag_true s n w st hl.1 hl.2 c,
    fun n1 n2 w1 st1 w2 st2 h1 h2 => updateSettings_regrow s n1 n2 w1 st1 w2 st2 hl.1 hl.2 c h1 h2⟩
  rw [(parameterValueChanged_arrays s p).2.2] at hp
  exact hp

end ContinuousStats

namespace ContinuousStats

/-- Witness for C19 over the rationals.  Two channels are created and channel 0 processes a
sample, so it is warm.  A change of "stat" followed by `updateSettings` with one input keeps it
warm; `updateSettings` with no input followed by `updateSettings` with two inputs makes index 0
cold again. -/
theorem once_warm_always_warm_witness :
    (updateSettings
      (parameterValueChanged
        (process (⟨fun _ => -1 / 2, id, id⟩ : MathOps ℚ)
          (updateSettings (⟨Statistic.MEAN, 0, [], [], []⟩ : ContinuousStats ℚ) 2 1000 0)
          [⟨true, 1, 1000, [0]⟩] (fun _ _ => 7)).1
        ⟨"stat", 1⟩) 1 500 1).startingRunningMean[0]? = some false ∧
    (updateSettings
      (updateSettings
        (process (⟨fun _ => -1 / 2, id, id⟩ : MathOps ℚ)
          (updateSettings (⟨Statistic.MEAN, 0, [], [], []⟩ : ContinuousStats ℚ) 2 1000 0)
          [⟨true, 1, 1000, [0]⟩] (fun _ _ => 7)).1
        0 1000 0) 2 1000 0).startingRunningMean[0]? = some true := by
  have h := once_warm_always_warm (⟨fun _ => -1 / 2, id, id⟩ : MathOps ℚ)
    (process (⟨fun _ => -1 / 2, id, id⟩ : MathOps ℚ)
      (updateSettings (⟨Statistic.MEAN, 0, [], [], []⟩ : ContinuousStats ℚ) 2 1000 0)
      [⟨true, 1, 1000, [0]⟩] (fun _ _ => 7)).1
    (Reachable.process
      (updateSettings (⟨Statistic.MEAN, 0, [], [], []⟩ : ContinuousStats ℚ) 2 1000 0)
      [⟨true, 1, 1000, [0]⟩] (fun _ _ => 7)
      (Reachable.settings (⟨Statistic.MEAN, 0, [], [], []⟩ : ContinuousStats ℚ) 2 1000 0
        (Reachable.init (⟨Statistic.MEAN, 0, [], [], []⟩ : ContinuousStats ℚ) rfl))
      (by decide))
    0
  refine ⟨h.1 (by decide!) _ ?_, (h.2.2.2.2 0 2 1000 0 1000 0 (Nat.le_refl 0) (by decide)).1⟩
  exact KeepsChannel.settings _ _ 1 500 1 (KeepsChannel.param _ _ ⟨"stat", 1⟩
    (KeepsChannel.refl _)) (by decide)

end ContinuousStats

/-! ## The running mean does not overshoot -/

namespace ContinuousStats

end ContinuousStats

namespace ContinuousStats

end ContinuousStats

/-! ## The recursion in double precision -/

namespace ContinuousStats

/-- With no rounding the rounded loop is the sample loop. -/
theorem sampleLoopRounded_id {F : Type} [Field F] (N : MathOps F) (stat : Statistic)
    (alpha : F) (chan : Nat) :
    ∀ (k samp : Nat) (mean var : F) (buf : AudioBuffer F),
      sampleLoopRounded N id stat alpha chan k samp mean var buf =
        sampleLoop N stat alpha chan k samp mean var buf := by
  intro k
  induction k with
  | zero => intro samp mean var buf; rfl
  | succ k ih =>
    intro samp mean var buf
    simp only [sampleLoopRounded, sampleLoop, id]
    exact ih _ _ _ _

/-- The rounding on known values: `0.1` as a `double` and as a `float`, a value that is
already a `double`, a tie that goes to the even significand, and a negative value. -/
theorem roundBinary_values :
    roundBinary 53 (1 / 10) = 3602879701896397 / 36028797018963968 ∧
    roundBinary 24 (1 / 10) = 13421773 / 134217728 ∧
    roundBinary 53 (3602879701896397 / 36028797018963968) =
      3602879701896397 / 36028797018963968 ∧
    roundBinary 53 (1 - 1 / 2 ^ 54) = 1 ∧
    roundBinary 53 (1 + 3 / 2 ^ 53) = 1 + 4 / 2 ^ 53 ∧
    roundBinary 53 (-(1 / 3)) = -(6004799503160661 / 18014398509481984) := by
  refine ⟨by decide!, by decide!, by decide!, by decide!, by decide!, by decide!⟩

end ContinuousStats

namespace ContinuousStats

/-- C15, as stated, fails on the code's `double` arithmetic.  A warm channel with stored mean
`m0 = 0` under MEAN is fed samples all equal to `c = 10`; the decay coefficient is the `double`
`0x1.43a54e4e98864p-1 = 1423408956596761 / 2^51`, the value of `-expm1 (-1.0)` that lines 82-83
give for a time constant of 10 ms at 100 Hz, strictly between 0 and 1.  With every operation of
lines 88-89 rounded to a `double`, the mean is `5629499534213119 / 2^49` (one unit in the last
place below 10) after 36 samples and exactly `10` after 37 samples, and it is `10` again after
38 samples: the distance to `c` does not decrease at sample 38 although `m0 ≠ c`, and
`mean - c = 0` is not `(1 - alpha)^37 * (m0 - c)`.  The loop starts from the stored mean
(line 77) and its final mean is the one line 95 stores, both without rounding. -/
theorem distance_stalls_in_double_precision :
    ((0 : ℚ) < 1423408956596761 / 2251799813685248 ∧
      (1423408956596761 / 2251799813685248 : ℚ) < 1 ∧ (0 : ℚ) ≠ 10) ∧
    (sampleLoopRounded ⟨fun _ => -(1423408956596761 / 2251799813685248), id, roundBinary 24⟩
        (roundBinary 53) Statistic.MEAN (1423408956596761 / 2251799813685248) 0 36 0 0 0
        (fun _ _ => 10)).1 = 5629499534213119 / 562949953421312 ∧
    (sampleLoopRounded ⟨fun _ => -(1423408956596761 / 2251799813685248), id, roundBinary 24⟩
        (roundBinary 53) Statistic.MEAN (1423408956596761 / 2251799813685248) 0 37 0 0 0
        (fun _ _ => 10)).1 = 10 ∧
    (sampleLoopRounded ⟨fun _ => -(1423408956596761 / 2251799813685248), id, roundBinary 24⟩
        (roundBinary 53) Statistic.MEAN (1423408956596761 / 2251799813685248) 0 38 0 0 0
        (fun _ _ => 10)).1 = 10 ∧
    ¬ (|(sampleLoopRounded ⟨fun _ => -(1423408956596761 / 2251799813685248), id, roundBinary 24⟩
          (roundBinary 53) Statistic.MEAN (1423408956596761 / 2251799813685248) 0 38 0 0 0
          (fun _ _ => 10)).1 - 10| <
        |(sampleLoopRounded ⟨fun _ => -(1423408956596761 / 2251799813685248), id, roundBinary 24⟩
          (roundBinary 53) Statistic.MEAN (1423408956596761 / 2251799813685248) 0 37 0 0 0
          (fun _ _ => 10)).1 - 10|) ∧
    (sampleLoopRounded ⟨fun _ => -(1423408956596761 / 2251799813685248), id, roundBinary 24⟩
        (roundBinary 53) Statistic.MEAN (1423408956596761 / 2251799813685248) 0 37 0 0 0
        (fun _ _ => 10)).1 - 10 ≠
      (1 - 1423408956596761 / 2251799813685248) ^ 37 * (0 - 10) := by
  have h37 : (sampleLoopRounded
      ⟨fun _ => -(1423408956596761 / 2251799813685248), id, roundBinary 24⟩
      (roundBinary 53) Statistic.MEAN (1423408956596761 / 2251799813685248) 0 37 0 0 0
      (fun _ _ => 10)).1 = 10 := by decide!
  have h38 : (sampleLoopRounded
      ⟨fun _ => -(1423408956596761 / 2251799813685248), id, roundBinary 24⟩
      (roundBinary 53) Statistic.MEAN (1423408956596761 / 2251799813685248) 0 38 0 0 0
      (fun _ _ => 10)).1 = 10 := by decide!
  refine ⟨⟨by norm_num, by norm_num, by norm_num⟩, by decide!, h37, h38, ?_, ?_⟩
  · rw [h37, h38]
    simp
  · rw [h37]
    have hpos : (0 : ℚ) < (1 - 1423408956596761 / 2251799813685248) ^ 37 :=
      pow_pos (by norm_num) 37
    intro h
    linarith

end ContinuousStats
